import Mathlib

/-!
Verification of the jupytext cell serialization codec (`jupytext/cell_to_text.py`).

The Python source is shallowly embedded: cells and metadata become inductive values,
each exporter class becomes a record of fields built by an `init` function mirroring
`__init__`, and the methods become pure functions on those records.  Helper modules
that are referenced by `cell_to_text.py` but whose source is not available
(`languages.py`, `cell_metadata.py`, `magics.py`, `metadata_filter.py`,
`cell_reader.py`, `pep8.py`) are modelled from the specification; each such
definition carries a doc comment starting with `Modelled from the spec:`.
-/

namespace Jupytext

/-- JSON-compatible metadata values (the subset exercised by the codec). -/
inductive JVal where
  | str (s : String)
  | bool (b : Bool)
  | nat (n : Nat)
  | list (xs : List String)
deriving DecidableEq, Repr

/-- Cell metadata: a mapping with unique string keys and insertion order preserved,
modelling a Python `dict`. -/
abbrev Metadata := List (String × JVal)

/-- Lookup of a key, as Python `d.get(k)` / `d[k]`. -/
def mdGet (md : Metadata) (k : String) : Option JVal :=
  match md with
  | [] => none
  | (k0, v) :: rest => if k0 = k then some v else mdGet rest k

/-- Key membership, as Python `k in d`. -/
def mdContains (md : Metadata) (k : String) : Bool :=
  (mdGet md k).isSome

/-- Assignment `d[k] = v`: replace in place when the key exists, append otherwise. -/
def mdSet (md : Metadata) (k : String) (v : JVal) : Metadata :=
  match md with
  | [] => [(k, v)]
  | (k0, v0) :: rest => if k0 = k then (k0, v) :: rest else (k0, v0) :: mdSet rest k v

/-- Deletion `del d[k]` / `d.pop(k)` (keys are unique). -/
def mdErase (md : Metadata) (k : String) : Metadata :=
  match md with
  | [] => []
  | (k0, v0) :: rest => if k0 = k then rest else (k0, v0) :: mdErase rest k

/-- Python regex `\\s` on the characters that can occur in source text. -/
def isPySpace (c : Char) : Bool :=
  c = ' ' || c = '\t' || c = '\n' || c = '\r' || c = '\x0b' || c = '\x0c'

/-- Split a character list at every occurrence of a separator; `n` separators
yield `n + 1` parts. -/
def splitOnChar (sep : Char) : List Char → List (List Char)
  | [] => [[]]
  | c :: rest =>
    if c = sep then [] :: splitOnChar sep rest
    else
      match splitOnChar sep rest with
      | [] => [[c]]
      | p :: ps => (c :: p) :: ps

/-- Character-level drop on a string (Python slicing), written so that it reduces
in the kernel. -/
def strDrop (s : String) (n : Nat) : String :=
  String.mk (s.toList.drop n)

/-- Character-level prefix test on strings. -/
def strIsPrefix (p s : String) : Bool :=
  p.toList.isPrefixOf s.toList

/-- Python `str.strip()`: remove leading and trailing whitespace. -/
def pyStrip (s : String) : String :=
  String.mk (((s.toList.dropWhile isPySpace).reverse.dropWhile isPySpace).reverse)

/-- Whether the pattern occurs as a contiguous substring of the character list. -/
def hasInfix (p : List Char) : List Char → Bool
  | [] => p.isEmpty
  | c :: rest => p.isPrefixOf (c :: rest) || hasInfix p rest

/-- Join a list of strings with a separator (kernel-reducible `str.join`). -/
def joinSep (sep : String) : List String → String
  | [] => ""
  | [x] => x
  | x :: xs => x ++ sep ++ joinSep sep xs

/-- A notebook cell as consumed by the codec: type, source text, metadata
(outputs are opaque to the codec and not represented). -/
structure Cell where
  cell_type : String
  source : String
  metadata : Metadata
deriving DecidableEq, Repr

/-- The export-format configuration record (`fmt` dictionary). -/
structure Fmt where
  extension : Option String
  cell_metadata_filter : Option String
  comment_magics : Option Bool
  cell_markers : Option String
  rst2md : Bool
deriving DecidableEq, Repr

/-- Python `str.splitlines`: split on newlines, with no trailing empty part for a
string that ends in a newline, and no part at all for the empty string. -/
def pySplitlines (s : String) : List String :=
  if s.toList = [] then []
  else if s.toList.getLast? = some '\n' then
    ((splitOnChar '\n' s.toList).map String.mk).dropLast
  else (splitOnChar '\n' s.toList).map String.mk

/-- Join lines with newlines (inverse of splitting, up to the trailing newline). -/
def joinLines (lines : List String) : String :=
  joinSep "\n" lines

/-- Embedding of `cell_source(cell)` (source lines 18-25): the cell's source as a
list of lines, with a trailing empty line recording a final newline. -/
def cell_source (cell : Cell) : List String :=
  if cell.source = "" then [""]
  else if cell.source.toList.getLast? = some '\n' then pySplitlines cell.source ++ [""]
  else pySplitlines cell.source

/-- Modelled from the spec: the transient-key set `_IGNORE_CELL_METADATA`
(cell_metadata.py, not in src) of metadata keys never written to text. -/
def ignoreCellMetadata : List String :=
  ["autoscroll", "collapsed", "scrolled", "trusted", "ExecuteTime"]

/-- Modelled from the spec: `filter_metadata` (metadata_filter.py, not in src) applies
the format's metadata filter before any dialect-specific encoding; keys the filter
drops are never written to text.  The filter spec is modelled as a comma-joined deny
list on top of the always-ignored keys. -/
def filter_metadata (md : Metadata) (filterSpec : Option String) : Metadata :=
  let dropped := ignoreCellMetadata ++
    (match filterSpec with
     | none => []
     | some s => (splitOnChar ',' s.toList).map String.mk)
  md.filter (fun kv => !(dropped.contains kv.1))

/-- Modelled from the spec: the known Jupyter languages (`_JUPYTER_LANGUAGES`,
languages.py, not in src). -/
def jupyterLanguages : List String := ["python", "R", "julia", "bash"]

/-- Modelled from the spec: `cell_language(source)` (languages.py, not in src) — when
the first source line is a `%%lang` magic-cell directive for a known language, that
line is removed from the source and the language and the directive's remaining
arguments are returned; otherwise nothing is detected. -/
def cell_language (source : List String) : Option String × Option String × List String :=
  match source with
  | [] => (none, none, [])
  | line :: rest =>
    match jupyterLanguages.find? (fun lang =>
        line = "%%" ++ lang || strIsPrefix ("%%" ++ lang ++ " ") line) with
    | some lang => (some lang, some (pyStrip (strDrop line (2 + lang.length))), rest)
    | none => (none, none, line :: rest)

/-- Modelled from the spec: `comment_lines(source, prefix)` (languages.py, not in
src) — prefix every line with the dialect's comment string; an empty comment leaves
the lines unchanged. -/
def comment_lines (source : List String) (pre : String) : List String :=
  if pre = "" then source
  else source.map (fun line => if line = "" then pre else pre ++ " " ++ line)

/-- A magic directive line, meant for the kernel's magic-command processor. -/
def isMagicLine (line : String) : Bool :=
  match line.toList with
  | '%' :: _ => true
  | _ => false

/-- Modelled from the spec: `comment_magic(source, language, global_escape_flag)`
(magics.py, not in src) — when escaping is enabled, the magic lines in the leading
run of the cell are commented out; when disabled the source is unchanged. -/
def commentLeadingMagics : List String → List String
  | [] => []
  | line :: rest =>
    if isMagicLine line then ("# " ++ line) :: commentLeadingMagics rest
    else line :: rest

/-- Modelled from the spec: see `commentLeadingMagics`. -/
def comment_magic (source : List String) (_language : String) (flag : Bool) : List String :=
  if flag then commentLeadingMagics source else source

/-- Modelled from the spec: `escape_code_start(source, ext, language)` (magics.py, not
in src) — comment out a line that the reader would otherwise mistake for a cell
boundary; the modelled trigger is a line equal to the Markdown fence delimiter. -/
def escape_code_start (source : List String) (ext : Option String)
    (_language : Option String) : List String :=
  source.map (fun line => if line = "```" && ext = some ".md" then "# ```" else line)

/-- Modelled from the spec: `is_active(ext, metadata)` (cell_metadata.py, not in
src) — a cell is active for a format unless its `active` metadata excludes that
format; the `active` value lists the format names in which the cell is active. -/
def is_active (ext : String) (md : Metadata) : Bool :=
  let name :=
    match ext.toList with
    | '.' :: rest => String.mk rest
    | _ => ext
  match mdGet md "active" with
  | none => true
  | some (JVal.str v) => ((splitOnChar ',' v.toList).map String.mk).contains name
  | some _ => true

/-- Modelled from the spec: the JSON rendering of a metadata value, as used by the
inline JSON options grammar. -/
def jsonVal : JVal → String
  | .str s => "\"" ++ s ++ "\""
  | .bool b => if b then "true" else "false"
  | .nat n => toString n
  | .list xs => "[" ++ joinSep ", " (xs.map (fun x => "\"" ++ x ++ "\"")) ++ "]"

/-- Modelled from the spec: the `"key": value` pair list of an inline JSON
object. -/
def jsonPairsStr (md : Metadata) : String :=
  joinSep ", " (md.map (fun kv => "\"" ++ kv.1 ++ "\": " ++ jsonVal kv.2))

/-- Modelled from the spec: `json.dumps` / `metadata_to_json_options`
(cell_metadata.py, not in src) — a single inline JSON object. -/
def metadata_to_json_options (md : Metadata) : String :=
  "\x7b" ++ jsonPairsStr md ++ "\x7d"

/-- Modelled from the spec: the R rendering of a metadata value in chunk options. -/
def rmdVal : JVal → String
  | .str s => "\"" ++ s ++ "\""
  | .bool b => if b then "TRUE" else "FALSE"
  | .nat n => toString n
  | .list xs => "c(" ++ joinSep ", " (xs.map (fun x => "\"" ++ x ++ "\"")) ++ ")"

/-- Modelled from the spec: `metadata_to_rmd_options(language, metadata)`
(cell_metadata.py, not in src) — comma-joined `key=value` chunk options with the
language as unlabeled first token. -/
def metadata_to_rmd_options (language : Option String) (md : Metadata) : String :=
  joinSep ", "
    ((match language with | none => [] | some l => [l]) ++
      md.map (fun kv => kv.1 ++ "=" ++ rmdVal kv.2))

/-- Modelled from the spec: `metadata_to_md_options` (cell_metadata.py, not in
src) — space-joined `key=value` tokens for the Markdown fence header. -/
def metadata_to_md_options (md : Metadata) : String :=
  joinSep " " (md.map (fun kv => kv.1 ++ "=" ++ jsonVal kv.2))

/-- Modelled from the spec: `metadata_to_double_percent_options` (cell_metadata.py,
not in src) — space-joined tokens with the cell type as a bracketed leading token. -/
def metadata_to_double_percent_options (md : Metadata) : String :=
  let ct := match mdGet md "cell_type" with
    | some (JVal.str s) => ["[" ++ s ++ "]"]
    | _ => []
  joinSep " "
    (ct ++ (mdErase md "cell_type").map (fun kv => kv.1 ++ "=" ++ jsonVal kv.2))

/-- Modelled from the spec: `pep8_lines_between_cells` (pep8.py, not in src) — the
style rule for blank lines between adjacent script blocks; the spec leaves the exact
convention open ("two blank lines in the common case"), and no claim exercises this
branch, so the common case is modelled. -/
def pep8_lines_between_cells (_prev _nxt : List String) (_ext : Option String) : Nat := 2

/-- Modelled from the spec: the comment character of `_SCRIPT_EXTENSIONS`
(languages.py, not in src); every script dialect in scope uses `#`, which is also
the fallback for non-script extensions. -/
def scriptComment (_ext : Option String) : String := "#"

/-- Whether the current extension names the R Markdown dialect
(`self.ext.endswith('.Rmd')`). -/
def extIsRmd (ext : Option String) : Bool :=
  match ext with
  | some e => (".Rmd".toList).isSuffixOf e.toList
  | none => false

/-- Read a numeric metadata value (`cell.metadata.get(key)` for the blank-line
counts). -/
def mdGetNat (md : Metadata) (k : String) : Option Nat :=
  match mdGet md k with
  | some (JVal.nat n) => some n
  | _ => none

/-- Quoting of magic arguments for R Markdown (source lines 46-48). -/
def quoteMagicArgs (args : String) : String :=
  let q := if args.toList.contains '\x27' then "\"" else "\x27"
  q ++ args ++ q

/-- The fields of `BaseCellExporter` after `__init__`. -/
structure ExporterState where
  fmt : Fmt
  ext : Option String
  cell_type : String
  source : List String
  unfiltered_metadata : Metadata
  metadata : Metadata
  language : String
  default_language : String
  comment : String
  comment_magics : Bool
  lines_to_next_cell : Option Nat
  lines_to_end_of_cell_marker : Option Nat
deriving DecidableEq, Repr

/-- The `magic_args` metadata write of `BaseCellExporter.__init__`
(source lines 45-49). -/
def initMagicArgsMetadata (ext : Option String) (md : Metadata)
    (lang margs : Option String) : Metadata :=
  match lang, margs with
  | some _, some args =>
    if args ≠ "" then
      mdSet md "magic_args"
        (JVal.str (if extIsRmd ext then quoteMagicArgs args else args))
    else md
  | _, _ => md

/-- The `language` metadata write of `BaseCellExporter.__init__`
(source lines 51-52): the detected language is stored except for R Markdown. -/
def initLanguageMetadata (ext : Option String) (md : Metadata)
    (lang : Option String) : Metadata :=
  match lang with
  | some l => if extIsRmd ext then md else mdSet md "language" (JVal.str l)
  | none => md

/-- The `active` metadata write for raw cells of `BaseCellExporter.__init__`
(source lines 64-65). -/
def initActiveMetadata (cellType : String) (md : Metadata) : Metadata :=
  if cellType = "raw" && !(mdContains md "active") then
    mdSet md "active" (JVal.str "")
  else md

/-- Embedding of `BaseCellExporter.__init__` (source lines 33-65).  The class-level
flags `parse_cell_language` and `default_comment_magics` are explicit arguments.
The returned `unfiltered_metadata` field is, as in the source, the caller's
`cell.metadata` itself (an alias, not a copy). -/
def baseInit (cell : Cell) (default_language : String) (fmt : Fmt)
    (parseLang : Bool) (defaultCommentMagics : Bool) : ExporterState :=
  let ext := fmt.extension
  let metadata0 := filter_metadata cell.metadata fmt.cell_metadata_filter
  let parsed := if parseLang then cell_language (cell_source cell)
    else (none, none, cell_source cell)
  let metadata3 := initActiveMetadata cell.cell_type
    (initLanguageMetadata ext (initMagicArgsMetadata ext metadata0 parsed.1 parsed.2.1)
      parsed.1)
  { fmt := fmt, ext := ext, cell_type := cell.cell_type, source := parsed.2.2,
    unfiltered_metadata := cell.metadata, metadata := metadata3,
    language := parsed.1.getD default_language, default_language := default_language,
    comment := scriptComment ext,
    comment_magics := fmt.comment_magics.getD defaultCommentMagics,
    lines_to_next_cell := mdGetNat cell.metadata "lines_to_next_cell",
    lines_to_end_of_cell_marker := mdGetNat cell.metadata "lines_to_end_of_cell_marker" }

/-- Embedding of `BaseCellExporter.is_code` (source lines 67-73). -/
def base_is_code (st : ExporterState) : Bool :=
  if st.cell_type = "code" then true
  else if st.cell_type = "raw" && mdContains st.metadata "active" then true
  else false

/-- Error message raised when the Sphinx Gallery exporter is constructed with the
`rst2md` flag (source lines 422-423). -/
def rst2mdErrorMessage : String :=
  "The \x27rst2md\x27 option is a read only option. The reverse conversion is not " ++
  "implemented. Please either deactivate the option, or save to another format."

/-- Embedding of `SphinxGalleryCellExporter.__init__` (source lines 413-423): base
init, comment `#`, copy of `cell_marker` from the unfiltered metadata, then the
`rst2md` check, which raises `ValueError` in the constructor — before any text line
can be produced. -/
def sphinxGalleryInit (cell : Cell) (dl : String) (fmt : Fmt) :
    Except String ExporterState :=
  let st0 := baseInit cell dl fmt true true
  let st1 := { st0 with comment := "#" }
  let st2 :=
    match mdGet st1.unfiltered_metadata "cell_marker" with
    | some v => { st1 with metadata := mdSet st1.metadata "cell_marker" v }
    | none => st1
  if fmt.rst2md then Except.error rst2mdErrorMessage else Except.ok st2

/-! ## End-of-cell marker escalation (`endofcell_marker`, source lines 190-199)

The Python loop tries the tokens `-`, `--`, `---`, ... against the regex
`^{comment}( ){token}\s*$` over all source lines and returns the first token
that no line matches.  We embed the regex as an executable line matcher and
the loop as a fuel-indexed search, then prove that the fuel
`maxLineLen source + 2` is always sufficient. -/

/-- A token of `k` dashes. -/
def dashes (k : Nat) : String :=
  String.mk (List.replicate k '-')

/-- The mandatory prefix of an end-of-cell marker line: the comment string,
one space, and `k` dashes (regex `^{comment}( ){token}`). -/
def eocPattern (comment : String) (k : Nat) : List Char :=
  comment.toList ++ ' ' :: List.replicate k '-'

/-- Whether `line` matches the end marker regex `^{comment}( ){token}\s*$`
for the token of `k` dashes. -/
def matchesEocLine (comment : String) (k : Nat) (line : String) : Bool :=
  (eocPattern comment k).isPrefixOf line.toList
    && ((line.toList.drop (eocPattern comment k).length).all isPySpace)

/-- Whether some source line matches the end marker pattern for `k` dashes
(the `list(filter(endofcell_re.match, source))` test of the Python loop). -/
def eocCollides (source : List String) (comment : String) (k : Nat) : Bool :=
  source.any (matchesEocLine comment k)

/-- Length of the longest source line, in characters. -/
def maxLineLen (source : List String) : Nat :=
  source.foldr (fun l m => max l.toList.length m) 0

/-- The escalation loop of `endofcell_marker`, with explicit fuel: starting at
`k` dashes, return the first non-colliding token length. -/
def eocSearch (source : List String) (comment : String) : Nat → Nat → Option Nat
  | 0, _ => none
  | fuel + 1, k =>
    if eocCollides source comment k then eocSearch source comment fuel (k + 1)
    else some k

/-- Embedding of `endofcell_marker(source, comment)`: the escalating search
starting from a single dash, run with provably sufficient fuel. -/
def endofcell_marker (source : List String) (comment : String) : String :=
  dashes ((eocSearch source comment (maxLineLen source + 2) 1).getD 1)

/-! ## The light-script exporter -/

/-- The fields of `LightScriptCellExporter` after `__init__`: the base state plus
the custom marker pair; the class-level `use_cell_markers` flag distinguishes the
bare-script exporter subclass. -/
structure LightState where
  base : ExporterState
  cell_marker_start : Option String
  cell_marker_end : Option String
  use_cell_markers : Bool
deriving DecidableEq, Repr

/-- Split at the first comma (Python `split(',', 1)` on a string known to contain
a comma). -/
def splitFirstComma (s : String) : String × String :=
  let pre := s.toList.takeWhile (fun c => c ≠ ',')
  (String.mk pre, String.mk (s.toList.drop (pre.length + 1)))

/-- Warning message for a malformed `cell_markers` value (source lines 213-214). -/
def cellMarkersWarning (s : String) : String :=
  "Ignored cell markers \x27" ++ s ++
    "\x27 as it does not match the expected \x27start,end\x27 pattern"

/-- Embedding of `LightScriptCellExporter.__init__` (source lines 209-219): base
init, validation of the `cell_markers` option (a value without a comma is discarded
with a warning and the default marker pair is kept; the recognized pair is split at
the first comma unless it is the default `+,-`), and the `endofcell` copy from the
unfiltered metadata.  Returns the new state and the warnings emitted. -/
def lightInit (cell : Cell) (dl : String) (fmt : Fmt) (useCellMarkers : Bool) :
    LightState × List String :=
  let st0 := baseInit cell dl fmt true true
  let checked :=
    match fmt.cell_markers with
    | none => (fmt, (none : Option String), (none : Option String), ([] : List String))
    | some s =>
      if !(s.toList.contains ',') then
        ({ fmt with cell_markers := none }, none, none, [cellMarkersWarning s])
      else if s ≠ "+,-" then
        (fmt, some (splitFirstComma s).1, some (splitFirstComma s).2, [])
      else (fmt, none, none, [])
  let st1 := { st0 with fmt := checked.1 }
  let st2 :=
    match mdGet st1.unfiltered_metadata "endofcell" with
    | some v => { st1 with metadata := mdSet st1.metadata "endofcell" v }
    | none => st1
  (⟨st2, checked.2.1, checked.2.2.1, useCellMarkers⟩, checked.2.2.2)

/-- Embedding of `LightScriptCellExporter.is_code` (source lines 221-227): a
markdown cell with non-empty metadata is re-typed as a code cell, recording the
original cell type in metadata and commenting the source; the method mutates the
exporter, so the updated state is returned. -/
def light_is_code (st : LightState) : Bool × LightState :=
  if st.base.cell_type = "markdown" && !(st.base.metadata.isEmpty) then
    (true,
      { st with base :=
        { st.base with
          metadata := mdSet st.base.metadata "cell_type" (JVal.str st.base.cell_type),
          source := comment_lines st.base.source st.base.comment } })
  else (base_is_code st.base, st)

/-- Match of the custom-marker regex `^{comment}\s*{marker}\s*(.*)$` (or with `$`
right after the second `\s*` when `requireEnd` is set), with the marker taken
literally. -/
def matchesCommentMarker (comment marker line : String) (requireEnd : Bool) : Bool :=
  match comment.toList.isPrefixOf line.toList,
      (line.toList.drop comment.toList.length).dropWhile (fun c => c = ' ') with
  | false, _ => false
  | true, r1 =>
    marker.toList.isPrefixOf r1 &&
      (!requireEnd || (r1.drop marker.toList.length).all isPySpace)

/-- Modelled from the spec: the consumed-line count of `LightScriptCellReader.read`
(cell_reader.py, not in src) on an unmarked code block — reading a cell that is not
self-delimiting stops short of the end; per the spec a cell containing a blank line
is the ambiguous case, so reading is modelled as stopping at the first blank line. -/
def lightReaderConsumed (source : List String) : Nat :=
  (source.takeWhile (fun l => l ≠ "")).length

/-- Embedding of `LightScriptCellExporter.explicit_start_marker` (source lines
268-286). -/
def lightExplicitStartMarker (st : LightState) (source : List String) : Bool :=
  if !st.use_cell_markers then false
  else if !(st.base.metadata.isEmpty) then true
  else if (match st.cell_marker_start, st.cell_marker_end, source.head? with
    | some cms, some cme, some l =>
      matchesCommentMarker st.base.comment cms l false ||
        matchesCommentMarker st.base.comment cme l true
    | _, _, _ => false) then false
  else if st.base.source.all (fun line => strIsPrefix st.base.comment line) then true
  else if lightReaderConsumed source < source.length then true
  else false

/-- The rendered source of `LightScriptCellExporter.code_to_text` (source lines
230-241): activity resolution, code-start escaping, and magic handling or
commenting. -/
def lightRenderedSource (st : LightState) : List String :=
  let es := st.base
  let active0 := is_active (es.ext.getD "") es.metadata
  let active :=
    if es.language ≠ es.default_language && !(mdContains es.metadata "active") then false
    else active0
  let source0 := escape_code_start es.source es.ext (some es.language)
  if active then comment_magic source0 es.language es.comment_magics
  else source0.map (fun l => if l = "" then es.comment else es.comment ++ " " ++ l)

/-- The `endofcell` metadata write of `code_to_text` (source lines 243-244). -/
def lightMarkedState (st : LightState) (source : List String) : ExporterState :=
  if lightExplicitStartMarker st source then
    let tok :=
      match st.cell_marker_end with
      | some cme => cme
      | none => endofcell_marker source st.base.comment
    { st.base with metadata := mdSet st.base.metadata "endofcell" (JVal.str tok) }
  else st.base

/-- The start-of-cell marker tokens of `code_to_text` (source lines 254-262),
together with the metadata updates (`title` is popped into its own slot). -/
def lightStartMarkerLine (st : LightState) (es2 : ExporterState) :
    ExporterState × List String :=
  match st.cell_marker_start with
  | none => (es2, [es2.comment, "+", metadata_to_json_options es2.metadata])
  | some cms =>
    if !(es2.metadata.isEmpty) then
      match mdGet es2.metadata "title" with
      | some (JVal.str t) =>
        if (mdErase es2.metadata "title").isEmpty then
          ({ es2 with metadata := mdErase es2.metadata "title" },
            [es2.comment, cms, t])
        else
          ({ es2 with metadata := mdErase es2.metadata "title" },
            [es2.comment, cms, t, metadata_to_json_options (mdErase es2.metadata "title")])
      | _ => (es2, [es2.comment, cms, metadata_to_json_options es2.metadata])
    else (es2, [es2.comment, cms])

/-- Embedding of `LightScriptCellExporter.code_to_text` (source lines 229-266).
When the metadata lacks `endofcell` on the marker-emitting path the Python code
would raise `KeyError`; that path is unreachable from the exporter's own calls and
is modelled with the default token. -/
def lightCodeToText (st : LightState) : LightState × List String :=
  let source := lightRenderedSource st
  let es1 := lightMarkedState st source
  if es1.metadata.isEmpty || !st.use_cell_markers then ({ st with base := es1 }, source)
  else
    let endofcell :=
      match mdGet es1.metadata "endofcell" with
      | some (JVal.str e) => e
      | _ => "-"
    let es2 :=
      if endofcell = "-" || st.cell_marker_end.isSome then
        { es1 with metadata := mdErase es1.metadata "endofcell" }
      else es1
    let pair := lightStartMarkerLine st es2
    ({ st with base := pair.1 },
      [joinSep " " pair.2] ++ source ++ [pair.1.comment ++ " " ++ endofcell])

/-- Embedding of `LightScriptCellExporter.remove_eoc_marker` (source lines
288-311); `lines_to_next_cell` is exporter state, so the updated state is
returned together with the new text. -/
def remove_eoc_marker (st : LightState) (text next_text : List String) :
    LightState × List String :=
  if st.cell_marker_start.isSome then (st, text)
  else
    let p := light_is_code st
    let st1 := p.2
    let comment := st1.base.comment
    if p.1 && text.getLast? = some (comment ++ " -") then
      if next_text.isEmpty ||
          (match next_text.head? with
           | some l => strIsPrefix (comment ++ " + \x7b") l
           | none => false) then
        let es := st1.base
        let promote :=
          match es.lines_to_end_of_cell_marker with
          | none => false
          | some a =>
            decide (a ≠ 0) &&
              (match es.lines_to_next_cell with
               | none => true
               | some b => decide (b < a))
        let st2 :=
          if promote then
            { st1 with base :=
              { es with lines_to_next_cell := es.lines_to_end_of_cell_marker } }
          else st1
        (st2, text.dropLast)
      else
        let blank :=
          match st1.base.lines_to_end_of_cell_marker with
          | some b => b
          | none =>
            if pep8_lines_between_cells text.dropLast next_text st1.base.ext < 2 then 0
            else 2
        (st1, text.dropLast ++ List.replicate blank "" ++ text.drop (text.length - 1))
    else (st1, text)

/-- Embedding of `LightScriptCellExporter.simplify_soc_marker` (source lines
313-322). -/
def simplify_soc_marker (st : LightState) (text prev_text : List String) :
    LightState × List String :=
  if st.cell_marker_start.isSome then (st, text)
  else
    let p := light_is_code st
    let st1 := p.2
    if p.1 && text.head? = some (st1.base.comment ++ " + \x7b\x7d") then
      if prev_text.isEmpty ||
          (match prev_text.getLast? with
           | some l => pyStrip l = ""
           | none => false) then
        (st1, (st1.base.comment ++ " +") :: text.tail)
      else (st1, text)
    else (st1, text)

/-! ## The R Markdown and R script exporters -/

/-- Embedding of `MarkdownCellExporter.__init__` (source lines 113-115). -/
def markdownInit (cell : Cell) (dl : String) (fmt : Fmt) : ExporterState :=
  { baseInit cell dl fmt true false with comment := "" }

/-- Embedding of `RMarkdownCellExporter.__init__` (source lines 167-170). -/
def rMarkdownInit (cell : Cell) (dl : String) (fmt : Fmt) : ExporterState :=
  { baseInit cell dl fmt true true with ext := some ".Rmd", comment := "" }

/-- Embedding of `RMarkdownCellExporter.code_to_text` (source lines 172-187): when
the cell is not active for R Markdown, `eval = False` is forced into the metadata
before the chunk options are encoded. -/
def rMarkdownCodeToText (st : ExporterState) : ExporterState × List String :=
  let active := is_active (st.ext.getD "") st.metadata
  let source :=
    if active then comment_magic st.source st.language st.comment_magics else st.source
  let st1 :=
    if is_active "Rmd" st.metadata then st
    else { st with metadata := mdSet st.metadata "eval" (JVal.bool false) }
  let options := metadata_to_rmd_options (some st1.language) st1.metadata
  (st1, ["```\x7b" ++ options ++ "\x7d"] ++ source ++ ["```"])

/-- Embedding of `RScriptCellExporter.__init__` (source lines 334-336). -/
def rScriptInit (cell : Cell) (dl : String) (fmt : Fmt) : ExporterState :=
  { baseInit cell dl fmt true true with comment := "#\x27" }

/-- Embedding of `RScriptCellExporter.code_to_text` (source lines 338-357): when
the cell is not active for R, `eval = False` is forced into the metadata before
the chunk options are encoded. -/
def rScriptCodeToText (st : ExporterState) : ExporterState × List String :=
  let active := is_active (st.ext.getD "") st.metadata
  let source0 := escape_code_start st.source st.ext (some st.language)
  let source1 :=
    if active then comment_magic source0 st.language st.comment_magics else source0
  let source2 :=
    if !active then source1.map (fun l => if l = "" then "#" else "# " ++ l) else source1
  let st1 :=
    if is_active "R" st.metadata then st
    else { st with metadata := mdSet st.metadata "eval" (JVal.bool false) }
  let options := metadata_to_rmd_options none st1.metadata
  (st1, (if options = "" then [] else ["#+ " ++ options]) ++ source2)

/-! ## The Markdown exporter and its reader counterpart -/

/-- Embedding of `MarkdownCellExporter.html_comment` (source lines 117-129): wrap
the cell source in an HTML region whose start line carries the title and the JSON
metadata options. -/
def html_comment (st : ExporterState) (md : Metadata) (code : String) : List String :=
  let region_start :=
    if md.isEmpty then "<!-- #" ++ code ++ " -->"
    else
      match mdGet md "title" with
      | some (JVal.str t) =>
        if !(t.toList.contains '\x7b') then
          joinSep " " ["<!-- #" ++ code, t,
            metadata_to_json_options (mdErase md "title"), "-->"]
        else joinSep " " ["<!-- #" ++ code, metadata_to_json_options md, "-->"]
      | _ => joinSep " " ["<!-- #" ++ code, metadata_to_json_options md, "-->"]
  [region_start] ++ st.source ++ ["<!-- #end" ++ code ++ " -->"]

/-- The cell reconstructed by the modelled Markdown reader; its source is kept as
lines (the external document model joins them). -/
structure MdReadCell where
  cell_type : String
  metadata : Metadata
  sourceLines : List String
deriving DecidableEq, Repr

/-- Split a character list at the first occurrence of a delimiter character. -/
def splitAtFirst (a : Char) : List Char → Option (List Char × List Char)
  | [] => none
  | c :: rest =>
    if c = a then some ([], rest)
    else
      match splitAtFirst a rest with
      | some p => some (c :: p.1, p.2)
      | none => none

/-- Drop a literal character-list prefix, returning the remainder. -/
def dropPre : List Char → List Char → Option (List Char)
  | [], cs => some cs
  | _ :: _, [] => none
  | p :: ps, c :: cs => if p = c then dropPre ps cs else none

/-- Characters usable in representable metadata keys and string values: everything
that does not collide with a delimiter of the options grammars. -/
def plainChar (c : Char) : Bool :=
  !(c = ' ' || c = '"' || c = '=' || c = ',' || c = ':' || c = '[' || c = ']' ||
    c = '\x7b' || c = '\x7d' || c = '\\' || c = '\n')

/-- The structural metadata keys of the options codec: interpreted by the exporter
itself and routed to their own syntactic slots, never to the generic options
string (spec, options-codec section). -/
def structuralKeys : List String :=
  ["active", "language", "magic_args", "cell_type", "title", "endofcell",
    "cell_marker"]

/-- Metadata values representable in the modelled options grammars: plain strings,
booleans and plain string lists. -/
def reprVal : JVal → Bool
  | .str s => s.toList.all plainChar
  | .bool _ => true
  | .nat _ => false
  | .list xs => xs.all (fun x => x.toList.all plainChar)

/-- Representable metadata keys: plain characters and not a structural key. -/
def reprKey (k : String) : Bool :=
  k.toList.all plainChar && !(structuralKeys.contains k)

/-- Representable metadata mappings (the fragment on which the options codec is
modelled and proven inverse). -/
def reprMetadata (md : Metadata) : Bool :=
  md.all (fun kv => reprKey kv.1 && reprVal kv.2)

/-- Modelled from the spec: the Reader-side decoder of a bracketed string list. -/
def parseStrList : Nat → List Char → Option (List String)
  | _, [] => some []
  | 0, _ => none
  | fuel + 1, c :: rest =>
    if c = '"' then
      match splitAtFirst '"' rest with
      | some p =>
        match p.2 with
        | [] => some [String.mk p.1]
        | ',' :: ' ' :: rest2 =>
          match parseStrList fuel rest2 with
          | some xs => some (String.mk p.1 :: xs)
          | none => none
        | _ => none
      | none => none
    else none

/-- Modelled from the spec: the Reader-side decoder of one options value — a
quoted string, a boolean token, or a bracketed string list (the value forms the
modelled codec emits for representable metadata). -/
def parseJVal : List Char → Option (JVal × List Char)
  | [] => none
  | c :: rest =>
    if c = '"' then
      match splitAtFirst '"' rest with
      | some p => some (JVal.str (String.mk p.1), p.2)
      | none => none
    else if c = '[' then
      match splitAtFirst ']' rest with
      | some p =>
        match parseStrList (p.1.length + 1) p.1 with
        | some xs => some (JVal.list xs, p.2)
        | none => none
      | none => none
    else
      let tok := (c :: rest).takeWhile (fun ch => !(ch = ' ' || ch = ','))
      let rest2 := (c :: rest).drop tok.length
      if tok = "true".toList then some (JVal.bool true, rest2)
      else if tok = "false".toList then some (JVal.bool false, rest2)
      else none

/-- Modelled from the spec: the Reader-side decoder of the space-joined
`key=value` Markdown fence options (symmetric to `metadata_to_md_options`). -/
def parseMdOptions (fuel : Nat) (cs : List Char) : Option Metadata :=
  if cs = [] then some []
  else
    match fuel with
    | 0 => none
    | fuel + 1 =>
      match splitAtFirst '=' cs with
      | none => none
      | some p =>
        match parseJVal p.2 with
        | none => none
        | some q =>
          match q.2 with
          | [] => some [(String.mk p.1, q.1)]
          | ' ' :: rest =>
            match parseMdOptions fuel rest with
            | some md => some ((String.mk p.1, q.1) :: md)
            | none => none
          | _ => none

/-- Modelled from the spec: the Reader-side decoder of the `"key": value` pair
list of an inline JSON object (symmetric to `jsonPairsStr`). -/
def parseJsonPairs : Nat → List Char → Option Metadata
  | _, [] => some []
  | 0, _ => none
  | fuel + 1, c :: rest =>
    if c = '"' then
      match splitAtFirst '"' rest with
      | none => none
      | some pk =>
        match pk.2 with
        | ':' :: ' ' :: rest2 =>
          match parseJVal rest2 with
          | none => none
          | some q =>
            match q.2 with
            | [] => some [(String.mk pk.1, q.1)]
            | ',' :: ' ' :: rest3 =>
              match parseJsonPairs fuel rest3 with
              | some md => some ((String.mk pk.1, q.1) :: md)
              | none => none
            | _ => none
        | _ => none
    else none

/-- Modelled from the spec: the Reader-side decoder of an inline JSON object
(symmetric to `metadata_to_json_options`). -/
def parseJsonObj (cs : List Char) : Option Metadata :=
  match cs with
  | '\x7b' :: rest =>
    match splitAtFirst '\x7d' rest with
    | some p => if p.2 = [] then parseJsonPairs (p.1.length + 1) p.1 else none
    | none => none
  | _ => none

/-- Modelled from the spec: recognition of an HTML region start line
(`<!-- #raw … -->` or `<!-- #region … -->`), decoding the carried metadata. -/
def regionStartMeta (code : String) (line : String) : Option Metadata :=
  match dropPre ("<!-- #" ++ code ++ " ").toList line.toList with
  | none => none
  | some rest =>
    if rest = "-->".toList then some []
    else if rest.length < 4 then none
    else if rest.drop (rest.length - 4) = " -->".toList then
      parseJsonObj (rest.take (rest.length - 4))
    else none

/-- Modelled from the spec: recognition of a fenced-code start line — the fence,
a known Jupyter language, and optional fence options decoded to metadata. -/
def fenceInfo (line : String) : Option (String × Metadata) :=
  match dropPre ("```".toList) line.toList with
  | none => none
  | some rest =>
    if rest = [] then none
    else
      let langTok := rest.takeWhile (fun c => c ≠ ' ')
      let lang := String.mk langTok
      if jupyterLanguages.contains lang then
        match rest.drop langTok.length with
        | [] => some (lang, [])
        | ' ' :: optCs =>
          match parseMdOptions (optCs.length + 1) optCs with
          | some md => some (lang, md)
          | none => none
        | _ => none
      else none

/-- Whether a line starts a new cell for the modelled Markdown reader. -/
def isCellStart (line : String) : Bool :=
  (fenceInfo line).isSome || (regionStartMeta "region" line).isSome ||
    (regionStartMeta "raw" line).isSome

/-- Split a line block at the first occurrence of a delimiter line: the lines
before it and the lines after it. -/
def takeToLine (stop : String) : List String → Option (List String × List String)
  | [] => none
  | l :: rest =>
    if l = stop then some ([], rest)
    else
      match takeToLine stop rest with
      | some (pre, post) => some (l :: pre, post)
      | none => none

/-- Modelled from the spec: `MarkdownCellReader.read` (cell_reader.py, not in
src) — the Markdown dialect's reader, the exporter's contract partner.  At the
head of the line block it recognizes a raw HTML region, a markdown HTML region,
or a fenced code block of a known language (each with its decoded metadata; the
`%%lang` magic line is restored when the fence language differs from the notebook
default); otherwise it reads markdown text up to the next cell start.  Returns
the reconstructed cell and the number of lines consumed. -/
def mdReaderRead (dl : String) (lines : List String) : MdReadCell × Nat :=
  match lines with
  | [] => (⟨"markdown", [], []⟩, 0)
  | l :: rest =>
    match regionStartMeta "raw" l with
    | some md =>
      match takeToLine "<!-- #endraw -->" rest with
      | some p => (⟨"raw", md, p.1⟩, p.1.length + 2)
      | none => (⟨"raw", md, rest⟩, lines.length)
    | none =>
      match regionStartMeta "region" l with
      | some md =>
        match takeToLine "<!-- #endregion -->" rest with
        | some p => (⟨"markdown", md, p.1⟩, p.1.length + 2)
        | none => (⟨"markdown", md, rest⟩, lines.length)
      | none =>
        match fenceInfo l with
        | some li =>
          match takeToLine "```" rest with
          | some p =>
            (⟨"code", li.2, if li.1 = dl then p.1 else ("%%" ++ li.1) :: p.1⟩,
              p.1.length + 2)
          | none => (⟨"code", li.2, rest⟩, lines.length)
        | none =>
          let body := lines.takeWhile (fun x => !(isCellStart x))
          (⟨"markdown", [], body⟩, body.length)

/-- Embedding of `MarkdownCellExporter.cell_to_text` and `code_to_text` (source
lines 131-159); the reader self-consistency check of line 135 is performed against
the modelled Markdown reader. -/
def markdownCellToText (st : ExporterState) : List String :=
  if st.cell_type = "markdown" then
    if !(st.metadata.isEmpty) ||
        (mdReaderRead st.default_language st.source).2 < st.source.length then
      html_comment st st.metadata "region"
    else st.source
  else
    let source := comment_magic st.source st.language st.comment_magics
    let fm := mdErase (mdErase st.metadata "active") "language"
    let options :=
      (if st.cell_type = "code" && st.language ≠ "" then [st.language] else []) ++
      (if fm.isEmpty then [] else [metadata_to_md_options fm])
    if st.cell_type = "raw" then html_comment st fm "raw"
    else ["```" ++ joinSep " " options] ++ source ++ ["```"]

/-- One-cell Markdown export: construct the exporter and render the cell. -/
def markdownCellExport (cell : Cell) (dl : String) (fmt : Fmt) : List String :=
  markdownCellToText (markdownInit cell dl fmt)

/-- Drop the trailing run of empty lines (the claim's clause about trailing blank
lines that are not significant to the dialect). -/
def dropTrailingBlanks (lines : List String) : List String :=
  (lines.reverse.dropWhile (fun l => l = "")).reverse

/-- The default Markdown export context. -/
def mdFmt : Fmt := ⟨some ".md", none, none, none, false⟩

/-- The per-cell Markdown round-trip contract: reading the exported lines back
under the same context consumes them entirely and reconstructs a cell equal to
the input — same cell type, metadata equal to the input metadata as filtered by
the context's metadata filter (clause (a): only filter-dropped keys may differ),
and source equal up to trailing blank lines (clause (b)); outputs are not
represented at all (clause (c)). -/
def mdCellRoundTrips (cell : Cell) (dl : String) (fmt : Fmt) : Prop :=
  (mdReaderRead dl (markdownCellExport cell dl fmt)).2
      = (markdownCellExport cell dl fmt).length ∧
  (mdReaderRead dl (markdownCellExport cell dl fmt)).1.cell_type = cell.cell_type ∧
  (mdReaderRead dl (markdownCellExport cell dl fmt)).1.metadata
      = filter_metadata cell.metadata fmt.cell_metadata_filter ∧
  dropTrailingBlanks (mdReaderRead dl (markdownCellExport cell dl fmt)).1.sourceLines
      = dropTrailingBlanks (pySplitlines cell.source)

/-- The cells and contexts representable in the modelled fragment of the Markdown
dialect: a Markdown context (extension `.md`, magic-commenting at the dialect
default, any metadata filter, any unused fields), a known default language, a
representable filtered metadata mapping, and a source with no line colliding with
the dialect's own delimiters (a code cell may open with a bare `%%lang` directive
for a language other than the default). -/
def mdRoundTripSafe (cell : Cell) (dl : String) (fmt : Fmt) : Bool :=
  jupyterLanguages.contains dl &&
  (fmt.extension = some ".md") &&
  (fmt.comment_magics.getD false = false) &&
  reprMetadata (filter_metadata cell.metadata fmt.cell_metadata_filter) &&
  (if cell.cell_type = "code" then
    (match (cell_language (cell_source cell)).1 with
     | none => !((cell_source cell).contains "```")
     | some lang =>
       decide (lang ≠ dl) &&
         ((cell_source cell).head? = some ("%%" ++ lang)) &&
         !((cell_language (cell_source cell)).2.2.contains "```"))
   else if cell.cell_type = "raw" then
     !((cell_source cell).contains "<!-- #endraw -->") &&
       (cell_language (cell_source cell)).1.isNone
   else if cell.cell_type = "markdown" then
     (cell_language (cell_source cell)).1.isNone &&
       (if (filter_metadata cell.metadata fmt.cell_metadata_filter).isEmpty then
          (cell_source cell).all (fun l => !(isCellStart l))
        else !((cell_source cell).contains "<!-- #endregion -->"))
   else false)

/-- Modelled from the spec: the notebook main language inferred while importing a
Markdown document (external to the codec): the language of the first fenced code
block, with python as fallback. -/
def mdDocMainLanguage (lines : List String) : String :=
  match lines.findSome? (fun l => (fenceInfo l).map (fun p => p.1)) with
  | some l => l
  | none => "python"

/-- Modelled from the spec: the document-level Markdown import loop (external to
the codec per the interface section): read one cell, skip the single blank
separator line, and continue on the remaining lines. -/
def mdReadCells (dl : String) : Nat → List String → List Cell
  | 0, _ => []
  | _, [] => []
  | fuel + 1, lines =>
    let p := mdReaderRead dl lines
    let rest := lines.drop p.2
    let rest2 := if rest.head? = some "" then rest.tail else rest
    ⟨p.1.cell_type, joinLines p.1.sourceLines, p.1.metadata⟩ ::
      mdReadCells dl fuel rest2

/-- Modelled from the spec: `jupytext.reads` for the Markdown dialect, restricted
to headerless documents: infer the main language and read the cells. -/
def md_reads (text : String) : String × List Cell :=
  let lines := pySplitlines text
  let dl := mdDocMainLanguage lines
  (dl, mdReadCells dl (lines.length + 1) lines)

/-- Modelled from the spec: `jupytext.writes` for the Markdown dialect: export each
cell, separate consecutive cells with one blank line, and end the file with a
newline. -/
def md_writes (dl : String) (cells : List Cell) : String :=
  joinLines (List.intercalate [""] (cells.map
    (fun c => markdownCellExport c dl mdFmt))) ++ "\n"

/-- The Markdown document of the claim's concrete instance: fenced code blocks in
two different languages plus a raw block. -/
def c1DocText : String :=
  "```python tags=[\"parameters\"]\n1 + 1\n```\n\n" ++
    "<!-- #raw -->\nraw content\n<!-- #endraw -->\n\n```R\nls()\n```\n"

/-! ## The remaining dialect exporters, with the caller's cell threaded through

The Python exporters hold `self.unfiltered_metadata = cell.metadata` — an alias of
the caller's metadata dictionary, not a copy — while `self.metadata` is built from
a copy.  `cell.source` is read through `cell_source` (which builds a fresh line
list) and `cell.cell_type` is only read.  The embedding therefore threads the
alias through every state update; the frame property asserts that no pipeline
writes through it. -/

/-- Embedding of `BaseCellExporter.markdown_to_text` (source lines 85-91). -/
def markdown_to_text (es : ExporterState) (source : List String) : List String :=
  let source2 :=
    if es.comment ≠ "" && es.comment ≠ "#\x27" then
      comment_magic source es.language es.comment_magics
    else source
  comment_lines source2 es.comment

/-- Embedding of `BaseCellExporter.cell_to_text` (source lines 75-83) as inherited
by the light-script exporter. -/
def lightCellToText (st : LightState) : LightState × List String :=
  let p := light_is_code st
  if p.1 then lightCodeToText p.2
  else
    let es := p.2.base
    let source :=
      if es.comment = "" then escape_code_start es.source es.ext none else es.source
    (p.2, markdown_to_text es source)

/-- Embedding of `BaseCellExporter.cell_to_text` as inherited by the R script
exporter. -/
def rScriptCellToText (st : ExporterState) : ExporterState × List String :=
  if base_is_code st then rScriptCodeToText st
  else
    let source :=
      if st.comment = "" then escape_code_start st.source st.ext none else st.source
    (st, markdown_to_text st source)

/-- Embedding of `MarkdownCellExporter.cell_to_text` with the R Markdown
`code_to_text` override (source lines 131-139 and 172-187). -/
def rMarkdownCellToText (st : ExporterState) : ExporterState × List String :=
  if st.cell_type = "markdown" then
    if !(st.metadata.isEmpty) ||
        (mdReaderRead st.default_language st.source).2 < st.source.length then
      (st, html_comment st st.metadata "region")
    else (st, st.source)
  else rMarkdownCodeToText st

/-- The fields of `DoublePercentCellExporter` after `__init__` (source lines
365-367). -/
structure DoublePercentState where
  base : ExporterState
  cell_markers : Option String
deriving DecidableEq, Repr

/-- Embedding of `DoublePercentCellExporter.__init__` (source lines 365-367); the
`parseLang` and `defaultCommentMagics` arguments distinguish the Hydrogen
subclass. -/
def doublePercentInit (cell : Cell) (dl : String) (fmt : Fmt)
    (parseLang : Bool) (defaultCommentMagics : Bool) : DoublePercentState :=
  ⟨baseInit cell dl fmt parseLang defaultCommentMagics, fmt.cell_markers⟩

/-- Embedding of `DoublePercentCellExporter.cell_to_text` (source lines 369-397). -/
def doublePercentCellToText (st : DoublePercentState) : DoublePercentState × List String :=
  let es := st.base
  let es1 :=
    if es.cell_type ≠ "code" then
      { es with metadata := mdSet es.metadata "cell_type" (JVal.str es.cell_type) }
    else es
  let active0 := is_active "py" es1.metadata
  let active :=
    if es1.language ≠ es1.default_language && !(mdContains es1.metadata "active") then
      false
    else active0
  let es2 :=
    if es1.cell_type = "raw" && mdContains es1.metadata "active" &&
        mdGet es1.metadata "active" = some (JVal.str "") then
      { es1 with metadata := mdErase es1.metadata "active" }
    else es1
  let options := metadata_to_double_percent_options es2.metadata
  let lines :=
    if strIsPrefix "%" options || options = "" then [es2.comment ++ " %%" ++ options]
    else [es2.comment ++ " %% " ++ options]
  if es2.cell_type = "code" && active then
    let source := comment_magic es2.source es2.language es2.comment_magics
    if source = [""] then (⟨es2, st.cell_markers⟩, lines)
    else (⟨es2, st.cell_markers⟩, lines ++ source)
  else
    let cm :=
      match mdGet es2.unfiltered_metadata "cell_marker" with
      | some (JVal.str c) => some c
      | _ => st.cell_markers
    match cm with
    | some c =>
      if es2.cell_type ≠ "code" then
        (⟨es2, st.cell_markers⟩, lines ++ [c] ++ es2.source ++ [c])
      else (⟨es2, st.cell_markers⟩, lines ++ comment_lines es2.source es2.comment)
    | none => (⟨es2, st.cell_markers⟩, lines ++ comment_lines es2.source es2.comment)

/-- Embedding of `SphinxGalleryCellExporter.cell_to_text` (source lines 425-443). -/
def sphinxCellToText (st : ExporterState) : ExporterState × List String :=
  if st.cell_type = "code" then
    (st, comment_magic st.source st.language st.comment_magics)
  else
    let p :=
      match mdGet st.metadata "cell_marker" with
      | some (JVal.str c) => ({ st with metadata := mdErase st.metadata "cell_marker" }, c)
      | _ => (st, String.mk (List.replicate 79 '#'))
    if p.1.source = [""] then
      (p.1, if p.2 = "\"\"" || p.2 = "\x27\x27" then [p.2] else ["\"\""])
    else if p.2 = "\"\"\"" || p.2 = "\x27\x27\x27" then
      (p.1, [p.2] ++ p.1.source ++ [p.2])
    else
      (p.1,
        [if strIsPrefix (String.mk (List.replicate 20 '#')) p.2 then p.2
         else String.mk (List.replicate 79 '#')] ++ comment_lines p.1.source "#")

/-- The caller's cell as observable after an export call: the `cell_type` and
`source` attributes are never assigned through the cell reference, and the
metadata is reachable only through the `unfiltered_metadata` alias carried in the
state. -/
def cellAfter (es : ExporterState) (cell : Cell) : Cell :=
  { cell_type := cell.cell_type, source := cell.source, metadata := es.unfiltered_metadata }

/-! ## Lemmas and claim theorems -/
theorem mdGet_mdSet_same (md : Metadata) (k : String) (v : JVal) :
    mdGet (mdSet md k v) k = some v := by
  induction md with
  | nil => simp [mdSet, mdGet]
  | cons kv rest ih =>
    by_cases h : kv.1 = k
    · simp [mdSet, mdGet, h]
    · simp [mdSet, mdGet, h, ih]

theorem mdGet_mdSet_ne (md : Metadata) {k k' : String} (h : k ≠ k') (v : JVal) :
    mdGet (mdSet md k v) k' = mdGet md k' := by
  induction md with
  | nil => simp [mdSet, mdGet, h]
  | cons kv rest ih =>
    by_cases hk : kv.1 = k
    · simp [mdSet, mdGet, hk, h, ih]
    · simp only [mdSet, if_neg hk, mdGet]
      by_cases hk2 : kv.1 = k'
      · simp [hk2]
      · simp [hk2, ih]

theorem mdGet_initMagicArgsMetadata_ne (ext : Option String) (md : Metadata)
    (lang margs : Option String) {k : String} (h : k ≠ "magic_args") :
    mdGet (initMagicArgsMetadata ext md lang margs) k = mdGet md k := by
  cases lang with
  | none => rfl
  | some l =>
    cases margs with
    | none => rfl
    | some args =>
      by_cases ha : args = ""
      · simp [initMagicArgsMetadata, ha]
      · simp only [initMagicArgsMetadata, if_pos (show args ≠ "" from ha)]
        rw [mdGet_mdSet_ne _ (fun he => h he.symm)]

theorem mdGet_initActiveMetadata_ne (cellType : String) (md : Metadata)
    {k : String} (h : k ≠ "active") :
    mdGet (initActiveMetadata cellType md) k = mdGet md k := by
  by_cases hc : (cellType = "raw" && !(mdContains md "active")) = true
  · simp only [initActiveMetadata, if_pos hc]
    rw [mdGet_mdSet_ne _ (fun he => h he.symm)]
  · simp only [initActiveMetadata, if_neg hc]

/-- Counterexample to C5 as stated: with default language `python`, a code cell whose
magic directive detects `python` — equal to the default — still gets the key
`language` written into its exported metadata, so the detected language is not
written "only when it differs from the default". -/
theorem detected_language_written_even_when_default :
    (cell_language (cell_source ⟨"code", "%%python\n1 + 1", []⟩)).1 = some "python" ∧
    mdGet (baseInit ⟨"code", "%%python\n1 + 1", []⟩ "python"
        ⟨some ".py", none, none, none, false⟩ true true).metadata "language"
      = some (JVal.str "python") := by
  constructor
  · decide
  · decide

/-- C5 (amended): the exporter's effective language is the language detected from a
magic-cell directive when present and the notebook default language otherwise; the
detected language is written into the exported metadata under `language` whenever a
language is detected and the dialect is not R Markdown — even when it equals the
default — and never for the R Markdown dialect. -/
theorem effective_language_and_language_metadata (cell : Cell) (dl : String)
    (fmt : Fmt) (dcm : Bool) :
    (baseInit cell dl fmt true dcm).language
        = ((cell_language (cell_source cell)).1.getD dl)
    ∧ (∀ l, (cell_language (cell_source cell)).1 = some l →
        extIsRmd fmt.extension = false →
        mdGet (baseInit cell dl fmt true dcm).metadata "language" = some (JVal.str l))
    ∧ (extIsRmd fmt.extension = true →
        mdGet (baseInit cell dl fmt true dcm).metadata "language"
          = mdGet (filter_metadata cell.metadata fmt.cell_metadata_filter) "language") := by
  refine ⟨rfl, ?_, ?_⟩
  · intro l hl hrmd
    show mdGet (initActiveMetadata cell.cell_type
      (initLanguageMetadata fmt.extension
        (initMagicArgsMetadata fmt.extension
          (filter_metadata cell.metadata fmt.cell_metadata_filter)
          (cell_language (cell_source cell)).1 (cell_language (cell_source cell)).2.1)
        (cell_language (cell_source cell)).1)) "language" = some (JVal.str l)
    rw [mdGet_initActiveMetadata_ne _ _ (by decide), hl, initLanguageMetadata, hrmd]
    simp only [Bool.false_eq_true, if_false]
    exact mdGet_mdSet_same _ _ _
  · intro hrmd
    show mdGet (initActiveMetadata cell.cell_type
      (initLanguageMetadata fmt.extension
        (initMagicArgsMetadata fmt.extension
          (filter_metadata cell.metadata fmt.cell_metadata_filter)
          (cell_language (cell_source cell)).1 (cell_language (cell_source cell)).2.1)
        (cell_language (cell_source cell)).1)) "language"
      = mdGet (filter_metadata cell.metadata fmt.cell_metadata_filter) "language"
    rw [mdGet_initActiveMetadata_ne _ _ (by decide)]
    have hlang : initLanguageMetadata fmt.extension
        (initMagicArgsMetadata fmt.extension
          (filter_metadata cell.metadata fmt.cell_metadata_filter)
          (cell_language (cell_source cell)).1 (cell_language (cell_source cell)).2.1)
        (cell_language (cell_source cell)).1
      = initMagicArgsMetadata fmt.extension
          (filter_metadata cell.metadata fmt.cell_metadata_filter)
          (cell_language (cell_source cell)).1 (cell_language (cell_source cell)).2.1 := by
      cases (cell_language (cell_source cell)).1 with
      | none => rfl
      | some l => simp [initLanguageMetadata, hrmd]
    rw [hlang, mdGet_initMagicArgsMetadata_ne _ _ _ _ (by decide)]

/-- Witness for C5 (amended): a `%%R` cell in a python notebook written as a python
script records `language = R` in metadata, and the same cell written as R Markdown
does not. -/
theorem effective_language_and_language_metadata_witness :
    mdGet (baseInit ⟨"code", "%%R\nls()", []⟩ "python"
        ⟨some ".py", none, none, none, false⟩ true true).metadata "language"
      = some (JVal.str "R") ∧
    mdGet (baseInit ⟨"code", "%%R\nls()", []⟩ "python"
        ⟨some ".Rmd", none, none, none, false⟩ true true).metadata "language"
      = none :=
  ⟨(effective_language_and_language_metadata ⟨"code", "%%R\nls()", []⟩ "python"
      ⟨some ".py", none, none, none, false⟩ true).2.1 "R" (by decide) (by decide),
   by
    rw [(effective_language_and_language_metadata ⟨"code", "%%R\nls()", []⟩ "python"
      ⟨some ".Rmd", none, none, none, false⟩ true).2.2 (by decide)]
    decide⟩

/-- C6: for every cell, default language and format configuration with the `rst2md`
flag set, constructing the Sphinx Gallery exporter fails with the configuration
error naming the `rst2md` option, in the constructor, before any text line is
produced. -/
theorem sphinx_rst2md_config_error (cell : Cell) (dl : String) (fmt : Fmt)
    (h : fmt.rst2md = true) :
    sphinxGalleryInit cell dl fmt = Except.error rst2mdErrorMessage ∧
    hasInfix ("rst2md".toList) rst2mdErrorMessage.toList = true := by
  constructor
  · simp only [sphinxGalleryInit, h, if_true]
  · decide

/-- Witness for C6 at a concrete cell and configuration. -/
theorem sphinx_rst2md_config_error_witness :
    sphinxGalleryInit ⟨"code", "1 + 1", []⟩ "python"
        ⟨some ".py", none, none, none, true⟩ = Except.error rst2mdErrorMessage :=
  (sphinx_rst2md_config_error ⟨"code", "1 + 1", []⟩ "python"
    ⟨some ".py", none, none, none, true⟩ rfl).1

theorem mem_le_maxLineLen {source : List String} {l : String} (h : l ∈ source) :
    l.toList.length ≤ maxLineLen source := by
  induction source with
  | nil => cases h
  | cons a rest ih =>
    have hmax : maxLineLen (a :: rest) = max a.toList.length (maxLineLen rest) := rfl
    rw [List.mem_cons] at h
    rcases h with h | h
    · subst h
      rw [hmax]
      exact Nat.le_max_left _ _
    · have h2 := ih h
      rw [hmax]
      omega

theorem eocPattern_length (comment : String) (k : Nat) :
    (eocPattern comment k).length = comment.toList.length + 1 + k := by
  simp [eocPattern]
  omega

theorem eocCollides_false_of_long {source : List String} {comment : String} {k : Nat}
    (h : maxLineLen source < k) : eocCollides source comment k = false := by
  rw [eocCollides, List.any_eq_false]
  intro line hline hmatch
  rw [matchesEocLine, Bool.and_eq_true] at hmatch
  have hp : eocPattern comment k <+: line.toList :=
    (List.isPrefixOf_iff_prefix).mp hmatch.1
  have hlen := hp.length_le
  rw [eocPattern_length] at hlen
  have := mem_le_maxLineLen hline
  omega

theorem eocSearch_isSome (source : List String) (comment : String) :
    ∀ fuel k, k ≤ maxLineLen source + 1 → maxLineLen source + 2 ≤ k + fuel →
      (eocSearch source comment fuel k).isSome = true := by
  intro fuel
  induction fuel with
  | zero => intro k h1 h2; omega
  | succ fuel ih =>
    intro k h1 h2
    rw [eocSearch]
    by_cases hc : eocCollides source comment k = true
    · rw [if_pos hc]
      have hk : k ≤ maxLineLen source := by
        by_contra hk
        rw [eocCollides_false_of_long (by omega)] at hc
        exact Bool.false_ne_true hc
      exact ih (k + 1) (by omega) (by omega)
    · rw [if_neg hc]
      rfl

theorem eocSearch_sound (source : List String) (comment : String) :
    ∀ fuel k j, eocSearch source comment fuel k = some j →
      k ≤ j ∧ eocCollides source comment j = false := by
  intro fuel
  induction fuel with
  | zero => intro k j h; exact absurd h (by simp [eocSearch])
  | succ fuel ih =>
    intro k j h
    rw [eocSearch] at h
    by_cases hc : eocCollides source comment k = true
    · rw [if_pos hc] at h
      have := ih (k + 1) j h
      exact ⟨by omega, this.2⟩
    · rw [if_neg hc] at h
      cases h
      exact ⟨Nat.le_refl _, Bool.eq_false_iff.mpr hc⟩

/-- C2: for every list of source lines and every comment string, `endofcell_marker`
returns a token of `k ≥ 1` dashes such that no source line matches the end-marker
line pattern (comment, one space, the token, optional trailing whitespace); in
particular a cell whose rendered source contains the literal line `# -` gets an
escalated end marker of two dashes or more. -/
theorem endofcell_marker_no_collision (source : List String) (comment : String) :
    (∃ k, 1 ≤ k ∧ endofcell_marker source comment = dashes k ∧
      eocCollides source comment k = false) ∧
    (("# -" : String) ∈ source → 2 ≤ (endofcell_marker source "#").toList.length) := by
  constructor
  · have hs := eocSearch_isSome source comment (maxLineLen source + 2) 1
      (by omega) (by omega)
    obtain ⟨j, hj⟩ := Option.isSome_iff_exists.mp hs
    obtain ⟨h1, h2⟩ := eocSearch_sound source comment _ 1 j hj
    refine ⟨j, h1, ?_, h2⟩
    rw [endofcell_marker, hj]
    rfl
  · intro hmem
    have hs := eocSearch_isSome source "#" (maxLineLen source + 2) 1
      (by omega) (by omega)
    obtain ⟨j, hj⟩ := Option.isSome_iff_exists.mp hs
    obtain ⟨h1, h2⟩ := eocSearch_sound source "#" _ 1 j hj
    have hcol1 : eocCollides source "#" 1 = true :=
      List.any_eq_true.mpr ⟨"# -", hmem, by decide⟩
    have hj2 : 2 ≤ j := by
      rcases Nat.lt_or_ge j 2 with hlt | hge
      · have : j = 1 := by omega
        rw [this] at h2
        rw [h2] at hcol1
        exact absurd hcol1 (by simp)
      · exact hge
    have hdl : (endofcell_marker source "#").toList.length = j := by
      rw [endofcell_marker, hj]
      show (List.replicate j '-').length = j
      exact List.length_replicate _ _
    omega

/-- Witness for C2, applied to a concrete cell that contains the line `# -`. -/
theorem endofcell_marker_no_collision_witness :
    (("# -" : String) ∈ ["x = 1", "# -"]) ∧
      2 ≤ (endofcell_marker ["x = 1", "# -"] "#").toList.length :=
  ⟨by decide, (endofcell_marker_no_collision ["x = 1", "# -"] "#").2 (by decide)⟩

/-- C3: for every finite list of source lines and every comment string, the
marker-escalation loop terminates: run with fuel `maxLineLen source + 2` the
search always returns a non-colliding token (a token longer than the longest
source line cannot match any line), and `endofcell_marker` is that token. -/
theorem endofcell_marker_loop_terminates (source : List String) (comment : String) :
    (eocSearch source comment (maxLineLen source + 2) 1).isSome = true ∧
    endofcell_marker source comment =
      dashes ((eocSearch source comment (maxLineLen source + 2) 1).getD 1) :=
  ⟨eocSearch_isSome source comment _ 1 (by omega) (by omega), rfl⟩

/-- C7: constructing the light-script exporter with a `cell_markers` value that does
not contain a comma emits the recoverable warning naming the ignored value (the
message embeds it verbatim), discards the malformed setting from the format, and
keeps the default marker pair (no custom start or end marker), so the export
continues. -/
theorem light_malformed_cell_markers_warning (cell : Cell) (dl : String) (fmt : Fmt)
    (ucm : Bool) (s : String) (h1 : fmt.cell_markers = some s)
    (h2 : s.toList.contains ',' = false) :
    (lightInit cell dl fmt ucm).2 = [cellMarkersWarning s] ∧
    (lightInit cell dl fmt ucm).1.cell_marker_start = none ∧
    (lightInit cell dl fmt ucm).1.cell_marker_end = none ∧
    (lightInit cell dl fmt ucm).1.base.fmt.cell_markers = none := by
  have hm : ',' ∉ s.data := by simpa using h2
  cases hmd : mdGet cell.metadata "endofcell" with
  | none =>
    refine ⟨?_, ?_, ?_, ?_⟩ <;>
      simp [lightInit, h1, hm, hmd, baseInit]
  | some v =>
    refine ⟨?_, ?_, ?_, ?_⟩ <;>
      simp [lightInit, h1, hm, hmd, baseInit]

/-- Witness for C7 at a concrete malformed configuration. -/
theorem light_malformed_cell_markers_warning_witness :
    (lightInit ⟨"code", "1 + 1", []⟩ "python"
        ⟨some ".py", none, none, some "stars", false⟩ true).2
      = [cellMarkersWarning "stars"] ∧
    (lightInit ⟨"code", "1 + 1", []⟩ "python"
        ⟨some ".py", none, none, some "stars", false⟩ true).1.cell_marker_start = none :=
  ⟨(light_malformed_cell_markers_warning ⟨"code", "1 + 1", []⟩ "python"
      ⟨some ".py", none, none, some "stars", false⟩ true "stars" rfl (by decide)).1,
   (light_malformed_cell_markers_warning ⟨"code", "1 + 1", []⟩ "python"
      ⟨some ".py", none, none, some "stars", false⟩ true "stars" rfl (by decide)).2.1⟩

/-- C10: a markdown cell whose filtered metadata is non-empty is re-typed by the
light-script exporter as a code cell: `is_code` returns true, the key `cell_type`
with value `markdown` is added to the exported metadata, and every source line is
prefixed with the dialect's comment string. -/
theorem light_markdown_cell_with_metadata_retyped (st : LightState)
    (h1 : st.base.cell_type = "markdown") (h2 : st.base.metadata ≠ []) :
    (light_is_code st).1 = true ∧
    mdGet (light_is_code st).2.base.metadata "cell_type" = some (JVal.str "markdown") ∧
    (light_is_code st).2.base.source = comment_lines st.base.source st.base.comment := by
  have hcond : (st.base.cell_type = "markdown" && !(st.base.metadata.isEmpty)) = true := by
    simp [h1, h2]
  refine ⟨?_, ?_, ?_⟩
  · simp [light_is_code, hcond]
  · simp only [light_is_code, hcond, if_pos]
    rw [mdGet_mdSet_same, h1]
  · simp [light_is_code, hcond]

/-- Witness for C10 at a concrete markdown cell carrying metadata. -/
theorem light_markdown_cell_with_metadata_retyped_witness :
    (light_is_code (lightInit ⟨"markdown", "a title", [("key", JVal.str "value")]⟩
        "python" ⟨some ".py", none, none, none, false⟩ true).1).2.base.source
      = ["# a title"] :=
  ((light_markdown_cell_with_metadata_retyped
      (lightInit ⟨"markdown", "a title", [("key", JVal.str "value")]⟩
        "python" ⟨some ".py", none, none, none, false⟩ true).1
      (by decide) (by decide)).2.2).trans (by decide)

/-- C4: for a light-script code cell exported without a custom start marker, when
the text ends with the end-of-cell marker line and the next cell's text is empty or
opens with an explicit start marker, `remove_eoc_marker` removes the final marker
line and sets `lines_to_next_cell` to the maximum of `lines_to_end_of_cell_marker`
and `lines_to_next_cell`. -/
theorem remove_eoc_marker_folds_blank_lines (st : LightState)
    (text next_text : List String) (a b : Nat)
    (h0 : st.cell_marker_start = none)
    (h1 : (light_is_code st).1 = true)
    (h2 : text.getLast? = some ((light_is_code st).2.base.comment ++ " -"))
    (h3 : next_text = [] ∨ ∃ l rest, next_text = l :: rest ∧
            strIsPrefix ((light_is_code st).2.base.comment ++ " + \x7b") l = true)
    (h4 : (light_is_code st).2.base.lines_to_end_of_cell_marker = some a)
    (h5 : (light_is_code st).2.base.lines_to_next_cell = some b) :
    (remove_eoc_marker st text next_text).2 = text.dropLast ∧
    (remove_eoc_marker st text next_text).1.base.lines_to_next_cell
      = some (max a b) := by
  have hns : st.cell_marker_start.isSome = false := by rw [h0]; rfl
  have hguard : ((light_is_code st).1 &&
      text.getLast? = some ((light_is_code st).2.base.comment ++ " -")) = true := by
    rw [h1, h2]; simp
  have hnext : (next_text.isEmpty ||
      (match next_text.head? with
       | some l => strIsPrefix ((light_is_code st).2.base.comment ++ " + \x7b") l
       | none => false)) = true := by
    rcases h3 with h | ⟨l, rest, hl, hp⟩
    · rw [h]; rfl
    · rw [hl]
      simp only [List.head?_cons, List.isEmpty_cons, Bool.false_or]
      exact hp
  by_cases hpromote : (a ≠ 0 ∧ b < a)
  · have hp : (match (light_is_code st).2.base.lines_to_end_of_cell_marker with
        | none => false
        | some a =>
          decide (a ≠ 0) &&
            (match (light_is_code st).2.base.lines_to_next_cell with
             | none => true
             | some b => decide (b < a))) = true := by
      rw [h4, h5]
      simp [hpromote.1, hpromote.2]
    constructor
    · simp [remove_eoc_marker, hns, hguard, hnext, hp]
    · simp only [remove_eoc_marker, hns, Bool.false_eq_true, if_false, hguard, if_true,
        hnext, hp]
      rw [h4]
      have : max a b = a := Nat.max_eq_left (Nat.le_of_lt hpromote.2)
      rw [this]
  · have hp : (match (light_is_code st).2.base.lines_to_end_of_cell_marker with
        | none => false
        | some a =>
          decide (a ≠ 0) &&
            (match (light_is_code st).2.base.lines_to_next_cell with
             | none => true
             | some b => decide (b < a))) = false := by
      rw [h4, h5]
      by_cases ha : a = 0
      · simp [ha]
      · have hb : ¬(b < a) := fun hlt => hpromote ⟨ha, hlt⟩
        simp [ha, hb]
    constructor
    · simp [remove_eoc_marker, hns, hguard, hnext, hp]
    · simp only [remove_eoc_marker, hns, Bool.false_eq_true, if_false, hguard, if_true,
        hnext, hp]
      rw [h5]
      have hba : a ≤ b := by
        by_cases ha : a = 0
        · omega
        · have hb : ¬(b < a) := fun hlt => hpromote ⟨ha, hlt⟩
          omega
      rw [Nat.max_eq_right hba]

/-- Witness for C4: a concrete cell with `lines_to_end_of_cell_marker = 2` and
`lines_to_next_cell = 1` loses its final `# -` line and carries `max 2 1 = 2`
forward. -/
theorem remove_eoc_marker_folds_blank_lines_witness :
    (remove_eoc_marker (lightInit ⟨"code", "1 + 1",
        [("lines_to_end_of_cell_marker", JVal.nat 2), ("lines_to_next_cell", JVal.nat 1)]⟩
        "python" ⟨some ".py", none, none, none, false⟩ true).1
      ["1 + 1", "# -"] []).2 = ["1 + 1"] ∧
    (remove_eoc_marker (lightInit ⟨"code", "1 + 1",
        [("lines_to_end_of_cell_marker", JVal.nat 2), ("lines_to_next_cell", JVal.nat 1)]⟩
        "python" ⟨some ".py", none, none, none, false⟩ true).1
      ["1 + 1", "# -"] []).1.base.lines_to_next_cell = some 2 := by
  have h := remove_eoc_marker_folds_blank_lines
    (lightInit ⟨"code", "1 + 1",
        [("lines_to_end_of_cell_marker", JVal.nat 2), ("lines_to_next_cell", JVal.nat 1)]⟩
        "python" ⟨some ".py", none, none, none, false⟩ true).1
    ["1 + 1", "# -"] [] 2 1 (by decide) (by decide) (by decide) (Or.inl rfl)
    (by decide) (by decide)
  exact ⟨h.1.trans (by decide), h.2⟩

/-- C8: when a code cell's `active` metadata excludes the target format, the
R Markdown exporter (checking format `Rmd`) and the R script exporter (checking
format `R`) force `eval = false` into the metadata before encoding the chunk
options string, regardless of any stored `eval` value; the encoded options line is
built from the updated metadata. -/
theorem inactive_cell_forces_eval_false (st : ExporterState)
    (h1 : is_active "Rmd" st.metadata = false)
    (h2 : is_active "R" st.metadata = false) :
    (mdGet (rMarkdownCodeToText st).1.metadata "eval" = some (JVal.bool false) ∧
      (rMarkdownCodeToText st).2.head? = some ("```\x7b" ++
        metadata_to_rmd_options (some st.language)
          (mdSet st.metadata "eval" (JVal.bool false)) ++ "\x7d")) ∧
    mdGet (rScriptCodeToText st).1.metadata "eval" = some (JVal.bool false) := by
  refine ⟨⟨?_, ?_⟩, ?_⟩
  · simp only [rMarkdownCodeToText, h1, Bool.false_eq_true, if_false]
    exact mdGet_mdSet_same _ _ _
  · simp [rMarkdownCodeToText, h1]
  · simp only [rScriptCodeToText, h2, Bool.false_eq_true, if_false]
    exact mdGet_mdSet_same _ _ _

/-- Witness for C8: a raw cell (whose `active` metadata is the empty string) with a
stored `eval = true` still gets `eval = false` in both exporters. -/
theorem inactive_cell_forces_eval_false_witness :
    mdGet (rMarkdownCodeToText (rMarkdownInit ⟨"raw", "x <- 1", [("eval", JVal.bool true)]⟩
        "R" ⟨some ".Rmd", none, none, none, false⟩)).1.metadata "eval"
      = some (JVal.bool false) ∧
    mdGet (rScriptCodeToText (rScriptInit ⟨"raw", "x <- 1", [("eval", JVal.bool true)]⟩
        "R" ⟨some ".R", none, none, none, false⟩)).1.metadata "eval"
      = some (JVal.bool false) :=
  ⟨(inactive_cell_forces_eval_false (rMarkdownInit ⟨"raw", "x <- 1", [("eval", JVal.bool true)]⟩
      "R" ⟨some ".Rmd", none, none, none, false⟩) (by decide) (by decide)).1.1,
   (inactive_cell_forces_eval_false (rScriptInit ⟨"raw", "x <- 1", [("eval", JVal.bool true)]⟩
      "R" ⟨some ".R", none, none, none, false⟩) (by decide) (by decide)).2⟩

theorem takeToLine_append (stop : String) (pre post : List String) (h : stop ∉ pre) :
    takeToLine stop (pre ++ stop :: post) = some (pre, post) := by
  induction pre with
  | nil => simp [takeToLine]
  | cons a rest ih =>
    rw [List.mem_cons] at h
    push_neg at h
    have h2 := ih h.2
    simp only [List.cons_append, takeToLine, List.append_eq] at h2 ⊢
    rw [if_neg (fun he => h.1 he.symm), h2]

theorem dropTrailingBlanks_append_blank (x : List String) :
    dropTrailingBlanks (x ++ [""]) = dropTrailingBlanks x := by
  simp [dropTrailingBlanks, List.dropWhile]

theorem dropTrailingBlanks_cell_source (cell : Cell) :
    dropTrailingBlanks (cell_source cell)
      = dropTrailingBlanks (pySplitlines cell.source) := by
  by_cases h0 : cell.source = ""
  · simp [cell_source, pySplitlines, h0, dropTrailingBlanks, List.dropWhile]
  · by_cases h1 : cell.source.toList.getLast? = some '\n'
    · rw [cell_source, if_neg h0, if_pos h1]
      exact dropTrailingBlanks_append_blank _
    · rw [cell_source, if_neg h0, if_neg h1]

theorem cell_language_eq_none (src : List String)
    (h : (cell_language src).1 = none) : cell_language src = (none, none, src) := by
  cases src with
  | nil => rfl
  | cons l rest =>
    rw [cell_language] at h ⊢
    cases hf : jupyterLanguages.find? (fun lang =>
        l = "%%" ++ lang || strIsPrefix ("%%" ++ lang ++ " ") l) with
    | some lang => rw [hf] at h; simp at h
    | none => rfl

theorem cell_language_mem (src : List String) (lang : String)
    (h : (cell_language src).1 = some lang) : lang ∈ jupyterLanguages := by
  cases src with
  | nil => simp [cell_language] at h
  | cons l rest =>
    rw [cell_language] at h
    cases hf : jupyterLanguages.find? (fun lg =>
        l = "%%" ++ lg || strIsPrefix ("%%" ++ lg ++ " ") l) with
    | some lg =>
      rw [hf] at h
      simp only [Option.some.injEq] at h
      subst h
      exact List.mem_of_find?_eq_some hf
    | none => rw [hf] at h; simp at h

theorem cell_language_find (l : String) (rest : List String) (lang : String)
    (h : (cell_language (l :: rest)).1 = some lang) :
    cell_language (l :: rest)
      = (some lang, some (pyStrip (strDrop l (2 + lang.length))), rest) := by
  rw [cell_language] at h ⊢
  cases hf : jupyterLanguages.find? (fun lg =>
      l = "%%" ++ lg || strIsPrefix ("%%" ++ lg ++ " ") l) with
  | none => rw [hf] at h; simp at h
  | some lg =>
    rw [hf] at h
    simp only [Option.some.injEq] at h
    subst h
    rfl

theorem strToList_append (a b : String) : (a ++ b).toList = a.toList ++ b.toList := by
  cases a
  cases b
  rfl

theorem strMk_toList (s : String) : String.mk s.toList = s := by
  cases s
  rfl

theorem splitAtFirst_append (a : Char) (pre post : List Char) (h : a ∉ pre) :
    splitAtFirst a (pre ++ a :: post) = some (pre, post) := by
  induction pre with
  | nil => simp [splitAtFirst]
  | cons c rest ih =>
    rw [List.mem_cons] at h
    push_neg at h
    have h2 := ih h.2
    simp only [List.cons_append, splitAtFirst, List.append_eq] at h2 ⊢
    rw [if_neg (fun he => h.1 he.symm), h2]

theorem dropPre_append (p cs : List Char) : dropPre p (p ++ cs) = some cs := by
  induction p with
  | nil => rfl
  | cons c rest ih => simp [dropPre, ih]

theorem dropPre_head_ne (p c : Char) (ps cs : List Char) (h : p ≠ c) :
    dropPre (p :: ps) (c :: cs) = none := by
  simp [dropPre, h]

theorem dropPre_append_left (p a x : List Char) (hlen : p.length ≤ a.length) :
    dropPre p (a ++ x) = (dropPre p a).map (fun r => r ++ x) := by
  induction p generalizing a with
  | nil => simp [dropPre]
  | cons c ps ih =>
    cases a with
    | nil => simp at hlen
    | cons b as =>
      simp only [List.cons_append, dropPre]
      by_cases hcb : c = b
      · rw [if_pos hcb, if_pos hcb]
        exact ih as (by simpa using hlen)
      · rw [if_neg hcb, if_neg hcb]
        rfl

theorem takeWhile_append_stop (p : Char → Bool) (tok tail : List Char)
    (h1 : ∀ c ∈ tok, p c = true) (h2 : ∀ h t, tail = h :: t → p h = false) :
    (tok ++ tail).takeWhile p = tok := by
  induction tok with
  | nil =>
    cases tail with
    | nil => rfl
    | cons h t => simp [List.takeWhile, h2 h t rfl]
  | cons c rest ih =>
    simp only [List.cons_append, List.takeWhile, h1 c (by simp), List.append_eq]
    rw [ih (fun x hx => h1 x (by simp [hx]))]

theorem takeWhile_all (p : String → Bool) (l : List String)
    (h : ∀ x ∈ l, p x = true) : l.takeWhile p = l := by
  induction l with
  | nil => rfl
  | cons x rest ih =>
    simp only [List.takeWhile, h x (by simp)]
    rw [ih (fun y hy => h y (by simp [hy]))]

theorem not_mem_of_plain {s : List Char} (hs : s.all plainChar = true) {c : Char}
    (hc : plainChar c = false) : c ∉ s := by
  intro hm
  have := List.all_eq_true.mp hs c hm
  rw [hc] at this
  exact Bool.false_ne_true this

theorem mem_quotedJoin (xs : List String) (c : Char)
    (hc : c ∈ (joinSep ", " (xs.map (fun x => "\"" ++ x ++ "\""))).toList) :
    c = '"' ∨ c = ',' ∨ c = ' ' ∨ ∃ x ∈ xs, c ∈ x.toList := by
  induction xs with
  | nil => simp [joinSep] at hc
  | cons x rest ih =>
    have hquote : ∀ y : String, c ∈ ("\"" ++ y ++ "\"").toList →
        c = '"' ∨ c ∈ y.toList := by
      intro y hy
      rw [strToList_append, strToList_append] at hy
      rcases List.mem_append.mp hy with hy | hy
      · rcases List.mem_append.mp hy with hy | hy
        · left
          simpa using hy
        · right
          exact hy
      · left
        simpa using hy
    cases rest with
    | nil =>
      rcases hquote x (by simpa [joinSep] using hc) with h | h
      · exact Or.inl h
      · exact Or.inr (Or.inr (Or.inr ⟨x, by simp, h⟩))
    | cons y t =>
      simp only [List.map_cons, joinSep, strToList_append] at hc
      rcases List.mem_append.mp hc with hc1 | hc2
      · rcases List.mem_append.mp hc1 with hc3 | hc4
        · rcases hquote x hc3 with h | h
          · exact Or.inl h
          · exact Or.inr (Or.inr (Or.inr ⟨x, by simp, h⟩))
        · rcases (by simpa using hc4 : c = ',' ∨ c = ' ') with h | h
          · exact Or.inr (Or.inl h)
          · exact Or.inr (Or.inr (Or.inl h))
      · rcases ih (by simpa [joinSep] using hc2) with h | h | h | ⟨z, hz, hcz⟩
        · exact Or.inl h
        · exact Or.inr (Or.inl h)
        · exact Or.inr (Or.inr (Or.inl h))
        · exact Or.inr (Or.inr (Or.inr ⟨z, by simp [hz], hcz⟩))

theorem toList_length_append (a b : String) :
    (a ++ b).toList.length = a.toList.length + b.toList.length := by
  rw [strToList_append, List.length_append]

theorem mem_jsonVal_repr (v : JVal) (hv : reprVal v = true) (c : Char)
    (hc : c ∈ (jsonVal v).toList) :
    c = '"' ∨ c = ',' ∨ c = ' ' ∨ c = '[' ∨ c = ']' ∨ plainChar c = true := by
  cases v with
  | str s =>
    simp only [reprVal] at hv
    simp only [jsonVal, strToList_append] at hc
    rcases List.mem_append.mp hc with hc | hc
    · rcases List.mem_append.mp hc with hc | hc
      · exact Or.inl (by simpa using hc)
      · exact Or.inr (Or.inr (Or.inr (Or.inr (Or.inr
          (List.all_eq_true.mp hv c hc)))))
    · exact Or.inl (by simpa using hc)
  | bool b =>
    cases b with
    | false =>
      simp only [jsonVal, if_neg (by simp : ¬ (false = true))] at hc
      have hall : "false".toList.all plainChar = true := by decide
      exact Or.inr (Or.inr (Or.inr (Or.inr (Or.inr
        (List.all_eq_true.mp hall c hc)))))
    | true =>
      simp only [jsonVal, if_pos rfl] at hc
      have hall : "true".toList.all plainChar = true := by decide
      exact Or.inr (Or.inr (Or.inr (Or.inr (Or.inr
        (List.all_eq_true.mp hall c hc)))))
  | nat n => simp [reprVal] at hv
  | list xs =>
    simp only [reprVal] at hv
    simp only [jsonVal, strToList_append] at hc
    rcases List.mem_append.mp hc with hc | hc
    · rcases List.mem_append.mp hc with hc | hc
      · exact Or.inr (Or.inr (Or.inr (Or.inl (by simpa using hc))))
      · rcases mem_quotedJoin xs c hc with h | h | h | ⟨x, hx, hcx⟩
        · exact Or.inl h
        · exact Or.inr (Or.inl h)
        · exact Or.inr (Or.inr (Or.inl h))
        · exact Or.inr (Or.inr (Or.inr (Or.inr (Or.inr
            (List.all_eq_true.mp (List.all_eq_true.mp hv x hx) c hcx)))))
    · exact Or.inr (Or.inr (Or.inr (Or.inr (Or.inl (by simpa using hc)))))

theorem mem_jsonPairsStr (md : Metadata) (hr : reprMetadata md = true) (c : Char)
    (hc : c ∈ (jsonPairsStr md).toList) :
    c = '"' ∨ c = ',' ∨ c = ' ' ∨ c = ':' ∨ c = '[' ∨ c = ']' ∨
      plainChar c = true := by
  induction md with
  | nil => simp [jsonPairsStr, joinSep] at hc
  | cons kv rest ih =>
    simp only [reprMetadata, List.all_cons, Bool.and_eq_true] at hr
    obtain ⟨⟨hkey, hval⟩, hrest⟩ := hr
    have hentry : ∀ d : Char, d ∈ ("\"" ++ kv.1 ++ "\": " ++ jsonVal kv.2).toList →
        d = '"' ∨ d = ',' ∨ d = ' ' ∨ d = ':' ∨ d = '[' ∨ d = ']' ∨
          plainChar d = true := by
      intro d hd
      simp only [strToList_append] at hd
      rcases List.mem_append.mp hd with hd | hd
      · rcases List.mem_append.mp hd with hd | hd
        · rcases List.mem_append.mp hd with hd | hd
          · exact Or.inl (by simpa using hd)
          · have hplain : kv.1.toList.all plainChar = true := by
              simp only [reprKey, Bool.and_eq_true] at hkey
              exact hkey.1
            exact Or.inr (Or.inr (Or.inr (Or.inr (Or.inr (Or.inr
              (List.all_eq_true.mp hplain d hd))))))
        · rcases (by simpa using hd : d = '"' ∨ d = ':' ∨ d = ' ') with h | h | h
          · exact Or.inl h
          · exact Or.inr (Or.inr (Or.inr (Or.inl h)))
          · exact Or.inr (Or.inr (Or.inl h))
      · rcases mem_jsonVal_repr kv.2 hval d hd with h | h | h | h | h | h
        · exact Or.inl h
        · exact Or.inr (Or.inl h)
        · exact Or.inr (Or.inr (Or.inl h))
        · exact Or.inr (Or.inr (Or.inr (Or.inr (Or.inl h))))
        · exact Or.inr (Or.inr (Or.inr (Or.inr (Or.inr (Or.inl h)))))
        · exact Or.inr (Or.inr (Or.inr (Or.inr (Or.inr (Or.inr h)))))
    cases rest with
    | nil => exact hentry c (by simpa [jsonPairsStr, joinSep] using hc)
    | cons kv2 t =>
      simp only [jsonPairsStr, List.map_cons, joinSep, strToList_append] at hc
      rcases List.mem_append.mp hc with hc1 | hc2
      · rcases List.mem_append.mp hc1 with hc3 | hc4
        · exact hentry c hc3
        · rcases (by simpa using hc4 : c = ',' ∨ c = ' ') with h | h
          · exact Or.inr (Or.inl h)
          · exact Or.inr (Or.inr (Or.inl h))
      · exact ih hrest (by simpa [jsonPairsStr, joinSep] using hc2)

theorem rbrace_not_mem_jsonPairsStr (md : Metadata) (hr : reprMetadata md = true) :
    ¬ ('\x7d' ∈ (jsonPairsStr md).toList) := by
  intro hm
  rcases mem_jsonPairsStr md hr _ hm with h | h | h | h | h | h | h
  all_goals exact absurd h (by decide)

theorem rbracket_not_mem_quotedJoin (xs : List String)
    (hxs : xs.all (fun x => x.toList.all plainChar) = true) :
    ¬ (']' ∈ (joinSep ", " (xs.map (fun x => "\"" ++ x ++ "\""))).toList) := by
  intro hm
  rcases mem_quotedJoin xs _ hm with h | h | h | ⟨x, hx, hcx⟩
  · exact absurd h (by decide)
  · exact absurd h (by decide)
  · exact absurd h (by decide)
  · exact not_mem_of_plain (List.all_eq_true.mp hxs x hx) (by decide) hcx

theorem length_le_joinSep {α : Type} (sep : String) (f : α → String) (xs : List α)
    (hf : ∀ a, 1 ≤ (f a).toList.length) :
    xs.length ≤ (joinSep sep (xs.map f)).toList.length := by
  induction xs with
  | nil => simp [joinSep]
  | cons x rest ih =>
    cases rest with
    | nil => simpa [joinSep] using hf x
    | cons y t =>
      simp only [List.map_cons, joinSep] at ih ⊢
      rw [toList_length_append, toList_length_append]
      have h1 := hf x
      simp only [List.length_cons] at ih ⊢
      omega

theorem length_le_jsonPairsStr (md : Metadata) :
    md.length ≤ (jsonPairsStr md).toList.length := by
  refine length_le_joinSep ", " _ md (fun kv => ?_)
  rw [toList_length_append, toList_length_append, toList_length_append]
  have h1 : ("\"" : String).toList.length = 1 := by decide
  omega

theorem length_le_mdOptionsStr (md : Metadata) :
    md.length ≤ (metadata_to_md_options md).toList.length := by
  refine length_le_joinSep " " _ md (fun kv => ?_)
  rw [toList_length_append, toList_length_append]
  have h1 : ("=" : String).toList.length = 1 := by decide
  omega

theorem contains_eq_false_of_reprKey (k : String) (hk : reprKey k = true) :
    structuralKeys.contains k = false := by
  simp only [reprKey, Bool.and_eq_true, Bool.not_eq_true'] at hk
  exact hk.2

theorem mdGet_none_of_structural (md : Metadata) (hr : reprMetadata md = true)
    (k : String) (hk : structuralKeys.contains k = true) : mdGet md k = none := by
  induction md with
  | nil => rfl
  | cons kv rest ih =>
    simp only [reprMetadata, List.all_cons, Bool.and_eq_true] at hr
    obtain ⟨⟨hkey, _⟩, hrest⟩ := hr
    have hc := contains_eq_false_of_reprKey kv.1 hkey
    have hne : kv.1 ≠ k := by
      intro he
      rw [he, hk] at hc
      exact absurd hc (by simp [hk])
    obtain ⟨k0, v0⟩ := kv
    rw [mdGet, if_neg hne]
    exact ih (by simpa [reprMetadata] using hrest)

theorem mdErase_of_get_none (md : Metadata) (k : String)
    (h : mdGet md k = none) : mdErase md k = md := by
  induction md with
  | nil => rfl
  | cons kv rest ih =>
    obtain ⟨k0, v0⟩ := kv
    rw [mdGet] at h
    by_cases he : k0 = k
    · rw [if_pos he] at h
      simp at h
    · rw [if_neg he] at h
      rw [mdErase, if_neg he, ih h]

theorem mdSet_of_get_none (md : Metadata) (k : String) (v : JVal)
    (h : mdGet md k = none) : mdSet md k v = md ++ [(k, v)] := by
  induction md with
  | nil => rfl
  | cons kv rest ih =>
    obtain ⟨k0, v0⟩ := kv
    rw [mdGet] at h
    by_cases he : k0 = k
    · rw [if_pos he] at h
      simp at h
    · rw [if_neg he] at h
      rw [mdSet, if_neg he, ih h]
      rfl

theorem mdGet_append_single (md : Metadata) (k k2 : String) (v2 : JVal)
    (h1 : mdGet md k = none) (h2 : k2 ≠ k) :
    mdGet (md ++ [(k2, v2)]) k = none := by
  induction md with
  | nil => simp [mdGet, if_neg h2]
  | cons kv rest ih =>
    obtain ⟨k0, v0⟩ := kv
    rw [mdGet] at h1
    by_cases he : k0 = k
    · rw [if_pos he] at h1
      simp at h1
    · rw [if_neg he] at h1
      rw [List.cons_append, mdGet, if_neg he]
      exact ih h1

theorem mdErase_append_single (md : Metadata) (k : String) (v : JVal)
    (h : mdGet md k = none) : mdErase (md ++ [(k, v)]) k = md := by
  induction md with
  | nil => simp [mdErase]
  | cons kv rest ih =>
    obtain ⟨k0, v0⟩ := kv
    rw [mdGet] at h
    by_cases he : k0 = k
    · rw [if_pos he] at h
      simp at h
    · rw [if_neg he] at h
      rw [List.cons_append, mdErase, if_neg he, ih h]

theorem drop_append_length (a b : List Char) : (a ++ b).drop a.length = b := by
  induction a with
  | nil => rfl
  | cons c rest ih => simpa using ih

theorem take_append_length (a b : List Char) : (a ++ b).take a.length = a := by
  induction a with
  | nil => rfl
  | cons c rest ih => simpa using ih

theorem quote_toList : ("\"" : String).toList = ['"'] := by decide

theorem commaSpace_toList : (", " : String).toList = [',', ' '] := by decide

theorem eqSign_toList : ("=" : String).toList = ['='] := by decide

theorem space_toList : (" " : String).toList = [' '] := by decide

theorem quoteColonSpace_toList : ("\": " : String).toList = ['"', ':', ' '] := by
  decide

theorem lbrace_toList : ("\x7b" : String).toList = ['\x7b'] := by decide

theorem rbrace_toList : ("\x7d" : String).toList = ['\x7d'] := by decide

theorem parseStrList_quotedJoin (xs : List String)
    (hxs : xs.all (fun x => x.toList.all plainChar) = true) :
    ∀ fuel, xs.length < fuel →
      parseStrList fuel
        (joinSep ", " (xs.map (fun x => "\"" ++ x ++ "\""))).toList = some xs := by
  induction xs with
  | nil =>
    intro fuel hf
    cases fuel with
    | zero => omega
    | succ n => rfl
  | cons x rest ih =>
    intro fuel hf
    cases fuel with
    | zero => omega
    | succ n =>
      simp only [List.all_cons, Bool.and_eq_true] at hxs
      obtain ⟨hx, hrest⟩ := hxs
      have hmem : ¬ ('"' ∈ x.toList) := not_mem_of_plain hx (by decide)
      cases rest with
      | nil =>
        have hshape : (joinSep ", " ([x].map (fun y => "\"" ++ y ++ "\""))).toList
            = '"' :: (x.toList ++ '"' :: []) := by
          simp only [List.map_cons, List.map_nil, joinSep, strToList_append,
            quote_toList, List.cons_append, List.nil_append, List.append_assoc]
        rw [hshape, parseStrList, if_pos rfl,
          splitAtFirst_append '"' x.toList [] hmem]
        dsimp only
        rw [strMk_toList]
      | cons y t =>
        have hshape :
            (joinSep ", " ((x :: y :: t).map (fun z => "\"" ++ z ++ "\""))).toList
            = '"' :: (x.toList ++ '"' :: (',' :: ' ' ::
                (joinSep ", " ((y :: t).map (fun z => "\"" ++ z ++ "\""))).toList)) := by
          simp only [List.map_cons, joinSep, strToList_append, quote_toList,
            commaSpace_toList, List.cons_append, List.nil_append, List.append_assoc]
        rw [hshape, parseStrList, if_pos rfl, splitAtFirst_append '"' x.toList _ hmem]
        have hih := ih hrest n (by simp only [List.length_cons] at hf ⊢; omega)
        simp only [hih, strMk_toList]

theorem parseJVal_jsonVal (v : JVal) (hv : reprVal v = true) (tail : List Char)
    (htail : tail = [] ∨ ∃ c cs, tail = c :: cs ∧ (c = ' ' ∨ c = ',')) :
    parseJVal ((jsonVal v).toList ++ tail) = some (v, tail) := by
  cases v with
  | str s =>
    simp only [reprVal] at hv
    have hshape : (jsonVal (JVal.str s)).toList ++ tail
        = '"' :: (s.toList ++ '"' :: tail) := by
      simp only [jsonVal, strToList_append, quote_toList, List.cons_append,
        List.nil_append, List.append_assoc]
    rw [hshape, parseJVal, if_pos rfl,
      splitAtFirst_append '"' s.toList tail (not_mem_of_plain hv (by decide))]
    dsimp only
    rw [strMk_toList]
  | bool b =>
    have htw : ∀ tok : List Char,
        (∀ c ∈ tok, (!(c = ' ' || c = ',')) = true) →
        (tok ++ tail).takeWhile (fun ch => !(ch = ' ' || ch = ',')) = tok := by
      intro tok h1
      refine takeWhile_append_stop _ tok tail h1 (fun c cs hc => ?_)
      rcases htail with h | ⟨c2, cs2, hcc, hsp⟩
      · rw [h] at hc
        exact absurd hc (by simp)
      · rw [hcc] at hc
        obtain ⟨he1, _⟩ := List.cons.inj hc
        rcases hsp with h | h <;> simp [← he1, h]
    cases b with
    | true =>
      have hshape : (jsonVal (JVal.bool true)).toList ++ tail
          = 't' :: ('r' :: 'u' :: 'e' :: [] ++ tail) := by
        rw [show jsonVal (JVal.bool true) = "true" from rfl,
          show ("true" : String).toList = ['t', 'r', 'u', 'e'] from by decide]
        rfl
      rw [hshape, parseJVal, if_neg (by decide), if_neg (by decide)]
      dsimp only
      rw [show ('t' :: ('r' :: 'u' :: 'e' :: [] ++ tail))
            = ('t' :: 'r' :: 'u' :: 'e' :: []) ++ tail from rfl,
        htw ('t' :: 'r' :: 'u' :: 'e' :: []) (by decide)]
      rw [if_pos (by decide), show (('t' :: 'r' :: 'u' :: 'e' :: []) ++ tail).drop
          ('t' :: 'r' :: 'u' :: 'e' :: []).length = tail from
            drop_append_length _ _]
    | false =>
      have hshape : (jsonVal (JVal.bool false)).toList ++ tail
          = 'f' :: ('a' :: 'l' :: 's' :: 'e' :: [] ++ tail) := by
        rw [show jsonVal (JVal.bool false) = "false" from rfl,
          show ("false" : String).toList = ['f', 'a', 'l', 's', 'e'] from by decide]
        rfl
      rw [hshape, parseJVal, if_neg (by decide), if_neg (by decide)]
      dsimp only
      rw [show ('f' :: ('a' :: 'l' :: 's' :: 'e' :: [] ++ tail))
            = ('f' :: 'a' :: 'l' :: 's' :: 'e' :: []) ++ tail from rfl,
        htw ('f' :: 'a' :: 'l' :: 's' :: 'e' :: []) (by decide)]
      rw [if_neg (by decide), if_pos (by decide),
        show (('f' :: 'a' :: 'l' :: 's' :: 'e' :: []) ++ tail).drop
          ('f' :: 'a' :: 'l' :: 's' :: 'e' :: []).length = tail from
            drop_append_length _ _]
  | nat n => simp [reprVal] at hv
  | list xs =>
    simp only [reprVal] at hv
    have hshape : (jsonVal (JVal.list xs)).toList ++ tail
        = '[' :: ((joinSep ", " (xs.map (fun x => "\"" ++ x ++ "\""))).toList
            ++ ']' :: tail) := by
      simp only [jsonVal, strToList_append, List.cons_append, List.nil_append,
        List.append_assoc]
      rw [show ("[" : String).toList = ['['] from by decide,
        show ("]" : String).toList = [']'] from by decide]
      rfl
    rw [hshape, parseJVal, if_neg (by decide), if_pos rfl,
      splitAtFirst_append ']' _ tail (rbracket_not_mem_quotedJoin xs hv)]
    have hlen : xs.length ≤
        (joinSep ", " (xs.map (fun x => "\"" ++ x ++ "\""))).toList.length := by
      refine length_le_joinSep ", " _ xs (fun a => ?_)
      rw [toList_length_append, toList_length_append]
      have h1 : ("\"" : String).toList.length = 1 := by decide
      omega
    dsimp only
    rw [parseStrList_quotedJoin xs hv
      ((joinSep ", " (xs.map (fun x => "\"" ++ x ++ "\""))).toList.length + 1)
      (by omega)]

theorem mdOptions_single (k : String) (v : JVal) :
    (metadata_to_md_options [(k, v)]).toList
      = k.toList ++ '=' :: (jsonVal v).toList := by
  simp only [metadata_to_md_options, List.map_cons, List.map_nil, joinSep,
    strToList_append, eqSign_toList, List.cons_append, List.nil_append,
    List.append_assoc]

theorem mdOptions_cons_cons (k : String) (v : JVal) (kv2 : String × JVal)
    (t : List (String × JVal)) :
    (metadata_to_md_options ((k, v) :: kv2 :: t)).toList
      = k.toList ++ '=' :: ((jsonVal v).toList
          ++ ' ' :: (metadata_to_md_options (kv2 :: t)).toList) := by
  simp only [metadata_to_md_options, List.map_cons, joinSep, strToList_append,
    eqSign_toList, space_toList, List.cons_append, List.nil_append,
    List.append_assoc]

theorem parseMdOptions_roundtrip (md : Metadata) (hr : reprMetadata md = true) :
    ∀ fuel, md.length < fuel →
      parseMdOptions fuel (metadata_to_md_options md).toList = some md := by
  induction md with
  | nil =>
    intro fuel hf
    rw [show (metadata_to_md_options []).toList = [] from by decide,
      parseMdOptions.eq_def, if_pos rfl]
  | cons kv rest ih =>
    intro fuel hf
    obtain ⟨k, v⟩ := kv
    cases fuel with
    | zero => omega
    | succ n =>
      simp only [reprMetadata, List.all_cons, Bool.and_eq_true] at hr
      obtain ⟨⟨hkey, hval⟩, hrest⟩ := hr
      have hkp : k.toList.all plainChar = true := by
        simp only [reprKey, Bool.and_eq_true] at hkey
        exact hkey.1
      have hmem : ¬ ('=' ∈ k.toList) := not_mem_of_plain hkp (by decide)
      cases rest with
      | nil =>
        rw [mdOptions_single, parseMdOptions.eq_def]
        rw [if_neg (by simp), splitAtFirst_append '=' k.toList _ hmem]
        have hjv := parseJVal_jsonVal v hval [] (Or.inl rfl)
        rw [List.append_nil] at hjv
        dsimp only
        rw [hjv]
        dsimp only
        rw [strMk_toList]
      | cons kv2 t =>
        rw [mdOptions_cons_cons, parseMdOptions.eq_def]
        rw [if_neg (by simp), splitAtFirst_append '=' k.toList _ hmem]
        dsimp only
        rw [parseJVal_jsonVal v hval _ (Or.inr ⟨' ', _, rfl, Or.inl rfl⟩)]
        have hih := ih (by simpa [reprMetadata] using hrest) n
          (by simp only [List.length_cons] at hf ⊢; omega)
        simp only [hih, strMk_toList]

theorem jsonPairs_single (k : String) (v : JVal) :
    (jsonPairsStr [(k, v)]).toList
      = '"' :: (k.toList ++ '"' :: ':' :: ' ' :: (jsonVal v).toList) := by
  simp only [jsonPairsStr, List.map_cons, List.map_nil, joinSep, strToList_append,
    quote_toList, quoteColonSpace_toList, List.cons_append, List.nil_append,
    List.append_assoc]

theorem jsonPairs_cons_cons (k : String) (v : JVal) (kv2 : String × JVal)
    (t : List (String × JVal)) :
    (jsonPairsStr ((k, v) :: kv2 :: t)).toList
      = '"' :: (k.toList ++ '"' :: ':' :: ' ' :: ((jsonVal v).toList
          ++ ',' :: ' ' :: (jsonPairsStr (kv2 :: t)).toList)) := by
  simp only [jsonPairsStr, List.map_cons, joinSep, strToList_append, quote_toList,
    quoteColonSpace_toList, commaSpace_toList, List.cons_append, List.nil_append,
    List.append_assoc]

theorem parseJsonPairs_roundtrip (md : Metadata) (hr : reprMetadata md = true) :
    ∀ fuel, md.length < fuel →
      parseJsonPairs fuel (jsonPairsStr md).toList = some md := by
  induction md with
  | nil =>
    intro fuel hf
    cases fuel with
    | zero => omega
    | succ n => rfl
  | cons kv rest ih =>
    intro fuel hf
    obtain ⟨k, v⟩ := kv
    cases fuel with
    | zero => omega
    | succ n =>
      simp only [reprMetadata, List.all_cons, Bool.and_eq_true] at hr
      obtain ⟨⟨hkey, hval⟩, hrest⟩ := hr
      have hkp : k.toList.all plainChar = true := by
        simp only [reprKey, Bool.and_eq_true] at hkey
        exact hkey.1
      have hmem : ¬ ('"' ∈ k.toList) := not_mem_of_plain hkp (by decide)
      cases rest with
      | nil =>
        rw [jsonPairs_single, parseJsonPairs, if_pos rfl,
          splitAtFirst_append '"' k.toList _ hmem]
        have hjv := parseJVal_jsonVal v hval [] (Or.inl rfl)
        rw [List.append_nil] at hjv
        simp only [hjv, strMk_toList]
      | cons kv2 t =>
        rw [jsonPairs_cons_cons, parseJsonPairs, if_pos rfl,
          splitAtFirst_append '"' k.toList _ hmem]
        have hjv := parseJVal_jsonVal v hval
          (',' :: ' ' :: (jsonPairsStr (kv2 :: t)).toList)
          (Or.inr ⟨',', _, rfl, Or.inr rfl⟩)
        have hih := ih (by simpa [reprMetadata] using hrest) n
          (by simp only [List.length_cons] at hf ⊢; omega)
        simp only [hjv, hih, strMk_toList]

theorem parseJsonObj_roundtrip (md : Metadata) (hr : reprMetadata md = true) :
    parseJsonObj (metadata_to_json_options md).toList = some md := by
  have hshape : (metadata_to_json_options md).toList
      = '\x7b' :: ((jsonPairsStr md).toList ++ '\x7d' :: []) := by
    simp only [metadata_to_json_options, strToList_append, lbrace_toList,
      rbrace_toList, List.cons_append, List.nil_append, List.append_assoc]
  rw [hshape, parseJsonObj,
    splitAtFirst_append '\x7d' _ [] (rbrace_not_mem_jsonPairsStr md hr)]
  dsimp only
  rw [if_pos rfl]
  exact parseJsonPairs_roundtrip md hr _ (by
    have := length_le_jsonPairsStr md
    omega)

theorem eq_none_of_isSome_false {α : Type} {o : Option α}
    (h : o.isSome = false) : o = none := by
  cases o with
  | none => rfl
  | some a => simp at h

theorem not_mem_of_contains_false {a : String} {l : List String}
    (h : l.contains a = false) : ¬ (a ∈ l) := by
  intro hm
  induction l with
  | nil => exact absurd hm (List.not_mem_nil a)
  | cons x t ih =>
    rw [List.contains_cons, Bool.or_eq_false_iff] at h
    rcases List.mem_cons.mp hm with h1 | h1
    · subst h1
      have := h.1
      simp at this
    · exact ih h.2 h1

theorem fence_toList (x : String) :
    ("```" ++ x).toList = '\x60' :: '\x60' :: '\x60' :: x.toList := by
  rw [strToList_append,
    show ("```" : String).toList = ['\x60', '\x60', '\x60'] from by decide]
  rfl

theorem regionPre_toList (code : String) :
    ("<!-- #" ++ code ++ " ").toList
      = '<' :: ('!' :: '-' :: '-' :: ' ' :: '#' :: [] ++ (code.toList ++ [' '])) := by
  simp only [strToList_append, space_toList, List.append_assoc]
  rw [show ("<!-- #" : String).toList
      = '<' :: '!' :: '-' :: '-' :: ' ' :: '#' :: [] from by decide]
  rfl

theorem regionStartMeta_of_backtick (code x : String) :
    regionStartMeta code ("```" ++ x) = none := by
  rw [regionStartMeta, regionPre_toList, fence_toList,
    dropPre_head_ne _ _ _ _ (by decide)]

theorem regionStartMeta_raw_region (line : String) (x : List Char)
    (h : line.toList = "<!-- #region".toList ++ x) :
    regionStartMeta "raw" line = none := by
  rw [regionStartMeta, h,
    show ("<!-- #" ++ "raw" ++ " ").toList = "<!-- #raw ".toList from by decide,
    dropPre_append_left _ _ _ (by decide),
    show dropPre ("<!-- #raw ".toList) ("<!-- #region".toList) = none from by decide]
  rfl

theorem mjo_length (md : Metadata) :
    2 ≤ (metadata_to_json_options md).toList.length := by
  rw [metadata_to_json_options, toList_length_append, toList_length_append]
  have h1 : ("\x7b" : String).toList.length = 1 := by decide
  have h2 : ("\x7d" : String).toList.length = 1 := by decide
  omega

theorem regionStartMeta_plain (code : String) :
    regionStartMeta code ("<!-- #" ++ code ++ " -->") = some [] := by
  have hshape : ("<!-- #" ++ code ++ " -->").toList
      = ("<!-- #" ++ code ++ " ").toList ++ ('-' :: '-' :: '>' :: []) := by
    simp only [strToList_append, space_toList, List.append_assoc,
      List.cons_append, List.nil_append]
    rw [show (" -->" : String).toList = [' ', '-', '-', '>'] from by decide]
  rw [regionStartMeta, hshape, dropPre_append]
  dsimp only
  rw [if_pos (by decide)]

theorem regionStartMeta_json (code : String) (md : Metadata)
    (hr : reprMetadata md = true) :
    regionStartMeta code
      (joinSep " " ["<!-- #" ++ code, metadata_to_json_options md, "-->"])
      = some md := by
  have hshape :
      (joinSep " " ["<!-- #" ++ code, metadata_to_json_options md, "-->"]).toList
      = ("<!-- #" ++ code ++ " ").toList
        ++ ((metadata_to_json_options md).toList ++ ' ' :: '-' :: '-' :: '>' :: []) := by
    simp only [joinSep, strToList_append, space_toList, List.append_assoc,
      List.cons_append, List.nil_append]
    rw [show ("-->" : String).toList = ['-', '-', '>'] from by decide]
  rw [regionStartMeta, hshape, dropPre_append]
  dsimp only
  have hlen2 := mjo_length md
  have hlen4 : ((metadata_to_json_options md).toList
      ++ ' ' :: '-' :: '-' :: '>' :: []).length
      = (metadata_to_json_options md).toList.length + 4 := by
    rw [List.length_append]
    rfl
  rw [if_neg (fun he => by
    have hl := congrArg List.length he
    rw [hlen4] at hl
    rw [show ("-->" : String).toList.length = 3 from by decide] at hl
    omega)]
  rw [if_neg (by rw [hlen4]; omega)]
  rw [show ((metadata_to_json_options md).toList
      ++ ' ' :: '-' :: '-' :: '>' :: []).length - 4
      = (metadata_to_json_options md).toList.length from by rw [hlen4]; omega]
  rw [drop_append_length, take_append_length, if_pos (by decide)]
  exact parseJsonObj_roundtrip md hr

theorem jupyterLanguages_contains (lang : String) (h : lang ∈ jupyterLanguages) :
    jupyterLanguages.contains lang = true := by
  simp only [jupyterLanguages, List.mem_cons, List.not_mem_nil, or_false] at h
  rcases h with h | h | h | h <;> subst h <;> decide

theorem jupyterLanguages_no_space (lang : String) (h : lang ∈ jupyterLanguages) :
    ∀ c ∈ lang.toList, (decide ¬(c = ' ')) = true := by
  simp only [jupyterLanguages, List.mem_cons, List.not_mem_nil, or_false] at h
  rcases h with h | h | h | h <;> subst h <;> decide

theorem fenceInfo_plain (lang : String) (hmem : lang ∈ jupyterLanguages) :
    fenceInfo ("```" ++ lang) = some (lang, []) := by
  simp only [jupyterLanguages, List.mem_cons, List.not_mem_nil, or_false] at hmem
  rcases hmem with h | h | h | h <;> subst h <;> decide

theorem fenceInfo_options (lang : String) (md : Metadata)
    (hmem : lang ∈ jupyterLanguages) (hr : reprMetadata md = true) :
    fenceInfo ("```" ++ joinSep " " [lang, metadata_to_md_options md])
      = some (lang, md) := by
  have hcont := jupyterLanguages_contains lang hmem
  have hnsp := jupyterLanguages_no_space lang hmem
  have hshape : ("```" ++ joinSep " " [lang, metadata_to_md_options md]).toList
      = "```".toList
        ++ (lang.toList ++ ' ' :: (metadata_to_md_options md).toList) := by
    simp only [joinSep, strToList_append, space_toList, List.append_assoc,
      List.cons_append, List.nil_append]
  rw [fenceInfo, hshape, dropPre_append]
  dsimp only
  rw [if_neg (by simp)]
  rw [takeWhile_append_stop _ lang.toList
    (' ' :: (metadata_to_md_options md).toList) hnsp
    (fun c cs hc => by
      obtain ⟨he, _⟩ := List.cons.inj hc
      rw [← he]
      decide)]
  rw [strMk_toList, if_pos hcont, drop_append_length]
  have hpm := parseMdOptions_roundtrip md hr
    ((metadata_to_md_options md).toList.length + 1)
    (by have := length_le_mdOptionsStr md; omega)
  simp only [hpm]

theorem mdReaderRead_of_no_cellStart (dl : String) (lines : List String)
    (h : ∀ l ∈ lines, isCellStart l = false) :
    mdReaderRead dl lines = (⟨"markdown", [], lines⟩, lines.length) := by
  cases lines with
  | nil => rfl
  | cons l rest =>
    have hl := h l (by simp)
    simp only [isCellStart, Bool.or_eq_false_iff] at hl
    obtain ⟨⟨hf, hreg⟩, hraw⟩ := hl
    rw [mdReaderRead, eq_none_of_isSome_false hraw]
    dsimp only
    rw [eq_none_of_isSome_false hreg]
    dsimp only
    rw [eq_none_of_isSome_false hf]
    dsimp only
    rw [takeWhile_all _ _ (fun x hx => by rw [h x hx]; rfl)]

theorem strDrop_magic (lang : String) :
    pyStrip (strDrop ("%%" ++ lang) (2 + lang.length)) = "" := by
  rw [strDrop, strToList_append,
    show ("%%" : String).toList = ['%', '%'] from by decide]
  have h : (('%' :: '%' :: []) ++ lang.toList).drop (2 + lang.length) = [] := by
    apply List.drop_eq_nil_of_le
    simp only [List.cons_append, List.nil_append, List.length_cons]
    rw [show lang.length = lang.toList.length from rfl]
    omega
  rw [h]
  rfl

theorem jupyterLanguages_ne_empty (lang : String) (h : lang ∈ jupyterLanguages) :
    lang ≠ "" := by
  simp only [jupyterLanguages, List.mem_cons, List.not_mem_nil, or_false] at h
  rcases h with h | h | h | h <;> subst h <;> decide

theorem markdownInit_no_directive (cell : Cell) (dl : String) (fmt : Fmt)
    (hcl : (cell_language (cell_source cell)).1 = none) :
    markdownInit cell dl fmt =
      { fmt := fmt, ext := fmt.extension, cell_type := cell.cell_type,
        source := cell_source cell,
        unfiltered_metadata := cell.metadata,
        metadata := initActiveMetadata cell.cell_type
          (filter_metadata cell.metadata fmt.cell_metadata_filter),
        language := dl, default_language := dl, comment := "",
        comment_magics := fmt.comment_magics.getD false,
        lines_to_next_cell := mdGetNat cell.metadata "lines_to_next_cell",
        lines_to_end_of_cell_marker :=
          mdGetNat cell.metadata "lines_to_end_of_cell_marker" } := by
  have hfull := cell_language_eq_none _ hcl
  simp only [markdownInit, baseInit, hfull, initMagicArgsMetadata,
    initLanguageMetadata, Option.getD_none, if_true]

theorem markdownInit_directive (cell : Cell) (dl : String) (fmt : Fmt)
    (lang : String) (rest : List String)
    (hsrc : cell_source cell = ("%%" ++ lang) :: rest)
    (hcl : (cell_language (cell_source cell)).1 = some lang)
    (hext : fmt.extension = some ".md")
    (hcode : cell.cell_type = "code")
    (hr : reprMetadata (filter_metadata cell.metadata fmt.cell_metadata_filter)
      = true) :
    markdownInit cell dl fmt =
      { fmt := fmt, ext := fmt.extension, cell_type := cell.cell_type,
        source := rest,
        unfiltered_metadata := cell.metadata,
        metadata := filter_metadata cell.metadata fmt.cell_metadata_filter
          ++ [("language", JVal.str lang)],
        language := lang, default_language := dl, comment := "",
        comment_magics := fmt.comment_magics.getD false,
        lines_to_next_cell := mdGetNat cell.metadata "lines_to_next_cell",
        lines_to_end_of_cell_marker :=
          mdGetNat cell.metadata "lines_to_end_of_cell_marker" } := by
  have hfull := cell_language_find ("%%" ++ lang) rest lang (by rw [← hsrc]; exact hcl)
  have hrmd : extIsRmd (some ".md") = false := by decide
  have hglang := mdGet_none_of_structural _ hr "language" (by decide)
  have hset := mdSet_of_get_none _ _ (JVal.str lang) hglang
  simp only [markdownInit, baseInit, hsrc, hfull, initMagicArgsMetadata,
    strDrop_magic, initLanguageMetadata, initActiveMetadata, hext, hcode, hrmd,
    hset, Option.getD_some, if_true, ne_eq, not_true_eq_false, if_false,
    Bool.false_and]
  simp

theorem mdRoundTrips_code_none (cell : Cell) (dl : String) (fmt : Fmt)
    (hdl : dl ∈ jupyterLanguages)
    (hext : fmt.extension = some ".md")
    (hcm : fmt.comment_magics.getD false = false)
    (hr : reprMetadata (filter_metadata cell.metadata fmt.cell_metadata_filter)
      = true)
    (hcode : cell.cell_type = "code")
    (hcl : (cell_language (cell_source cell)).1 = none)
    (hnf : ¬ ("```" ∈ cell_source cell)) :
    mdCellRoundTrips cell dl fmt := by
  have hinit := markdownInit_no_directive cell dl fmt hcl
  have hactive : initActiveMetadata cell.cell_type
      (filter_metadata cell.metadata fmt.cell_metadata_filter)
      = filter_metadata cell.metadata fmt.cell_metadata_filter := by
    rw [initActiveMetadata, hcode]
    rw [if_neg (by simp)]
  have hfm : mdErase (mdErase
      (filter_metadata cell.metadata fmt.cell_metadata_filter) "active") "language"
      = filter_metadata cell.metadata fmt.cell_metadata_filter := by
    rw [mdErase_of_get_none _ _ (mdGet_none_of_structural _ hr "active" (by decide)),
      mdErase_of_get_none _ _ (mdGet_none_of_structural _ hr "language" (by decide))]
  have hdlne : dl ≠ "" := jupyterLanguages_ne_empty dl hdl
  have hexp : markdownCellExport cell dl fmt
      = ("```" ++ joinSep " " ([dl] ++
          (if (filter_metadata cell.metadata fmt.cell_metadata_filter).isEmpty
            then [] else [metadata_to_md_options
              (filter_metadata cell.metadata fmt.cell_metadata_filter)])))
        :: (cell_source cell ++ ["```"]) := by
    rw [markdownCellExport, hinit, markdownCellToText]
    dsimp only
    rw [hactive, hfm, hcode, hcm]
    rw [if_neg (show ¬ (("code" : String) = "markdown") from by decide)]
    rw [comment_magic, if_neg (show ¬ ((false : Bool) = true) from by decide)]
    rw [if_neg (show ¬ (("code" : String) = "raw") from by decide)]
    rw [if_pos (show ((decide (("code" : String) = "code"))
        && (decide ¬ (dl = ""))) = true from by simp [hdlne])]
    rfl
  by_cases hmde : (filter_metadata cell.metadata fmt.cell_metadata_filter).isEmpty
  · have hnil : filter_metadata cell.metadata fmt.cell_metadata_filter = [] := by
      simpa using hmde
    rw [if_pos hmde] at hexp
    have hjs : joinSep " " ([dl] ++ ([] : List String)) = dl := by
      simp [joinSep]
    rw [hjs] at hexp
    have hread : mdReaderRead dl (markdownCellExport cell dl fmt)
        = (⟨"code", [], cell_source cell⟩, (cell_source cell).length + 2) := by
      rw [hexp, mdReaderRead, regionStartMeta_of_backtick]
      dsimp only
      rw [regionStartMeta_of_backtick]
      dsimp only
      rw [fenceInfo_plain dl hdl]
      dsimp only
      rw [takeToLine_append "```" (cell_source cell) [] hnf]
      dsimp only
      rw [if_pos rfl]
    rw [mdCellRoundTrips, hread, hexp]
    refine ⟨by simp, hcode.symm, hnil.symm, dropTrailingBlanks_cell_source cell⟩
  · rw [if_neg hmde] at hexp
    have hread : mdReaderRead dl (markdownCellExport cell dl fmt)
        = (⟨"code", filter_metadata cell.metadata fmt.cell_metadata_filter,
            cell_source cell⟩, (cell_source cell).length + 2) := by
      rw [hexp]
      rw [show [dl] ++ [metadata_to_md_options
            (filter_metadata cell.metadata fmt.cell_metadata_filter)]
          = [dl, metadata_to_md_options
            (filter_metadata cell.metadata fmt.cell_metadata_filter)] from rfl]
      rw [mdReaderRead, regionStartMeta_of_backtick]
      dsimp only
      rw [regionStartMeta_of_backtick]
      dsimp only
      rw [fenceInfo_options dl _ hdl hr]
      dsimp only
      rw [takeToLine_append "```" (cell_source cell) [] hnf]
      dsimp only
      rw [if_pos rfl]
    rw [mdCellRoundTrips, hread, hexp]
    refine ⟨by simp, hcode.symm, rfl, dropTrailingBlanks_cell_source cell⟩

theorem mdRoundTrips_code_some (cell : Cell) (dl : String) (fmt : Fmt)
    (lang : String)
    (hdl : dl ∈ jupyterLanguages)
    (hext : fmt.extension = some ".md")
    (hcm : fmt.comment_magics.getD false = false)
    (hr : reprMetadata (filter_metadata cell.metadata fmt.cell_metadata_filter)
      = true)
    (hcode : cell.cell_type = "code")
    (hcl : (cell_language (cell_source cell)).1 = some lang)
    (hlne : lang ≠ dl)
    (hhead : (cell_source cell).head? = some ("%%" ++ lang))
    (hnf : ¬ ("```" ∈ (cell_language (cell_source cell)).2.2)) :
    mdCellRoundTrips cell dl fmt := by
  obtain ⟨rest, hsrc⟩ : ∃ rest, cell_source cell = ("%%" ++ lang) :: rest := by
    cases hs : cell_source cell with
    | nil => rw [hs] at hhead; simp at hhead
    | cons a t =>
      rw [hs] at hhead
      simp only [List.head?_cons, Option.some.injEq] at hhead
      exact ⟨t, by rw [hhead]⟩
  have hlmem : lang ∈ jupyterLanguages := cell_language_mem _ lang hcl
  have hlne2 : lang ≠ "" := jupyterLanguages_ne_empty lang hlmem
  have hrest : (cell_language (cell_source cell)).2.2 = rest := by
    rw [hsrc, cell_language_find ("%%" ++ lang) rest lang (by rw [← hsrc]; exact hcl)]
  rw [hrest] at hnf
  have hinit := markdownInit_directive cell dl fmt lang rest hsrc hcl hext hcode hr
  have hga : mdGet (filter_metadata cell.metadata fmt.cell_metadata_filter
      ++ [("language", JVal.str lang)]) "active" = none :=
    mdGet_append_single _ _ _ _
      (mdGet_none_of_structural _ hr "active" (by decide)) (by decide)
  have hfm : mdErase (mdErase (filter_metadata cell.metadata fmt.cell_metadata_filter
      ++ [("language", JVal.str lang)]) "active") "language"
      = filter_metadata cell.metadata fmt.cell_metadata_filter := by
    rw [mdErase_of_get_none _ _ hga,
      mdErase_append_single _ _ _ (mdGet_none_of_structural _ hr "language" (by decide))]
  have hexp : markdownCellExport cell dl fmt
      = ("```" ++ joinSep " " ([lang] ++
          (if (filter_metadata cell.metadata fmt.cell_metadata_filter).isEmpty
            then [] else [metadata_to_md_options
              (filter_metadata cell.metadata fmt.cell_metadata_filter)])))
        :: (rest ++ ["```"]) := by
    rw [markdownCellExport, hinit, markdownCellToText]
    dsimp only
    rw [hfm, hcode, hcm]
    rw [if_neg (show ¬ (("code" : String) = "markdown") from by decide)]
    rw [comment_magic, if_neg (show ¬ ((false : Bool) = true) from by decide)]
    rw [if_neg (show ¬ (("code" : String) = "raw") from by decide)]
    rw [if_pos (show ((decide (("code" : String) = "code"))
        && (decide ¬ (lang = ""))) = true from by simp [hlne2])]
    rfl
  by_cases hmde : (filter_metadata cell.metadata fmt.cell_metadata_filter).isEmpty
  · have hnil : filter_metadata cell.metadata fmt.cell_metadata_filter = [] := by
      simpa using hmde
    rw [if_pos hmde] at hexp
    have hjs : joinSep " " ([lang] ++ ([] : List String)) = lang := by
      simp [joinSep]
    rw [hjs] at hexp
    have hread : mdReaderRead dl (markdownCellExport cell dl fmt)
        = (⟨"code", [], ("%%" ++ lang) :: rest⟩, rest.length + 2) := by
      rw [hexp, mdReaderRead, regionStartMeta_of_backtick]
      dsimp only
      rw [regionStartMeta_of_backtick]
      dsimp only
      rw [fenceInfo_plain lang hlmem]
      dsimp only
      rw [takeToLine_append "```" rest [] hnf]
      dsimp only
      rw [if_neg hlne]
    rw [mdCellRoundTrips, hread, hexp]
    refine ⟨by simp, hcode.symm, hnil.symm, ?_⟩
    rw [← hsrc]
    exact dropTrailingBlanks_cell_source cell
  · rw [if_neg hmde] at hexp
    have hread : mdReaderRead dl (markdownCellExport cell dl fmt)
        = (⟨"code", filter_metadata cell.metadata fmt.cell_metadata_filter,
            ("%%" ++ lang) :: rest⟩, rest.length + 2) := by
      rw [hexp]
      rw [show [lang] ++ [metadata_to_md_options
            (filter_metadata cell.metadata fmt.cell_metadata_filter)]
          = [lang, metadata_to_md_options
            (filter_metadata cell.metadata fmt.cell_metadata_filter)] from rfl]
      rw [mdReaderRead, regionStartMeta_of_backtick]
      dsimp only
      rw [regionStartMeta_of_backtick]
      dsimp only
      rw [fenceInfo_options lang _ hlmem hr]
      dsimp only
      rw [takeToLine_append "```" rest [] hnf]
      dsimp only
      rw [if_neg hlne]
    rw [mdCellRoundTrips, hread, hexp]
    refine ⟨by simp, hcode.symm, rfl, ?_⟩
    rw [← hsrc]
    exact dropTrailingBlanks_cell_source cell

theorem mdRoundTrips_raw (cell : Cell) (dl : String) (fmt : Fmt)
    (hdl : dl ∈ jupyterLanguages)
    (hext : fmt.extension = some ".md")
    (hcm : fmt.comment_magics.getD false = false)
    (hr : reprMetadata (filter_metadata cell.metadata fmt.cell_metadata_filter)
      = true)
    (hraw : cell.cell_type = "raw")
    (hcl : (cell_language (cell_source cell)).1 = none)
    (hnr : ¬ ("<!-- #endraw -->" ∈ cell_source cell)) :
    mdCellRoundTrips cell dl fmt := by
  have hinit := markdownInit_no_directive cell dl fmt hcl
  have hga := mdGet_none_of_structural _ hr "active" (by decide)
  have hact : initActiveMetadata cell.cell_type
      (filter_metadata cell.metadata fmt.cell_metadata_filter)
      = filter_metadata cell.metadata fmt.cell_metadata_filter
        ++ [("active", JVal.str "")] := by
    rw [initActiveMetadata, hraw,
      if_pos (show ((decide (("raw" : String) = "raw")) &&
        !(mdContains (filter_metadata cell.metadata fmt.cell_metadata_filter)
          "active")) = true from by simp [mdContains, hga])]
    exact mdSet_of_get_none _ _ _ hga
  have hfm : mdErase (mdErase (filter_metadata cell.metadata fmt.cell_metadata_filter
      ++ [("active", JVal.str "")]) "active") "language"
      = filter_metadata cell.metadata fmt.cell_metadata_filter := by
    rw [mdErase_append_single _ _ _ hga,
      mdErase_of_get_none _ _ (mdGet_none_of_structural _ hr "language" (by decide))]
  have htitle := mdGet_none_of_structural _ hr "title" (by decide)
  have hexp : markdownCellExport cell dl fmt
      = (if (filter_metadata cell.metadata fmt.cell_metadata_filter).isEmpty
          then "<!-- #raw -->"
          else joinSep " " ["<!-- #" ++ "raw", metadata_to_json_options
            (filter_metadata cell.metadata fmt.cell_metadata_filter), "-->"])
        :: (cell_source cell ++ ["<!-- #endraw -->"]) := by
    rw [markdownCellExport, hinit, markdownCellToText]
    dsimp only
    rw [hact, hfm, hraw, hcm]
    rw [if_neg (show ¬ (("raw" : String) = "markdown") from by decide)]
    rw [if_pos (show (("raw" : String) = "raw") from rfl)]
    rw [html_comment]
    dsimp only
    rw [htitle]
    rw [show ("<!-- #" ++ "raw" ++ " -->") = "<!-- #raw -->" from by decide,
      show ("<!-- #end" ++ "raw" ++ " -->") = "<!-- #endraw -->" from by decide]
    rfl
  by_cases hmde : (filter_metadata cell.metadata fmt.cell_metadata_filter).isEmpty
  · have hnil : filter_metadata cell.metadata fmt.cell_metadata_filter = [] := by
      simpa using hmde
    rw [if_pos hmde] at hexp
    have hread : mdReaderRead dl (markdownCellExport cell dl fmt)
        = (⟨"raw", [], cell_source cell⟩, (cell_source cell).length + 2) := by
      rw [hexp, mdReaderRead,
        show regionStartMeta "raw" "<!-- #raw -->" = some [] from by decide]
      dsimp only
      rw [takeToLine_append "<!-- #endraw -->" (cell_source cell) [] hnr]
    rw [mdCellRoundTrips, hread, hexp]
    refine ⟨by simp, hraw.symm, hnil.symm, dropTrailingBlanks_cell_source cell⟩
  · rw [if_neg hmde] at hexp
    have hread : mdReaderRead dl (markdownCellExport cell dl fmt)
        = (⟨"raw", filter_metadata cell.metadata fmt.cell_metadata_filter,
            cell_source cell⟩, (cell_source cell).length + 2) := by
      rw [hexp, mdReaderRead, regionStartMeta_json "raw" _ hr]
      dsimp only
      rw [takeToLine_append "<!-- #endraw -->" (cell_source cell) [] hnr]
    rw [mdCellRoundTrips, hread, hexp]
    refine ⟨by simp, hraw.symm, rfl, dropTrailingBlanks_cell_source cell⟩

theorem mdRoundTrips_markdown_plain (cell : Cell) (dl : String) (fmt : Fmt)
    (hdl : dl ∈ jupyterLanguages)
    (hext : fmt.extension = some ".md")
    (hcm : fmt.comment_magics.getD false = false)
    (hmdk : cell.cell_type = "markdown")
    (hcl : (cell_language (cell_source cell)).1 = none)
    (hnil : filter_metadata cell.metadata fmt.cell_metadata_filter = [])
    (hall : ∀ l ∈ cell_source cell, isCellStart l = false) :
    mdCellRoundTrips cell dl fmt := by
  have hinit := markdownInit_no_directive cell dl fmt hcl
  have hactm : initActiveMetadata cell.cell_type
      (filter_metadata cell.metadata fmt.cell_metadata_filter)
      = filter_metadata cell.metadata fmt.cell_metadata_filter := by
    rw [initActiveMetadata, hmdk, if_neg (by simp)]
  have hrd := mdReaderRead_of_no_cellStart dl (cell_source cell) hall
  have hexp : markdownCellExport cell dl fmt = cell_source cell := by
    rw [markdownCellExport, hinit, markdownCellToText]
    dsimp only
    rw [hactm, hnil, hmdk]
    rw [if_pos (show (("markdown" : String) = "markdown") from rfl)]
    rw [hrd]
    rw [show (!(List.isEmpty ([] : Metadata))
        || decide (((⟨"markdown", ([] : Metadata), cell_source cell⟩ : MdReadCell),
            (cell_source cell).length).2 < (cell_source cell).length))
        = false from by simp]
    rw [if_neg (show ¬ ((false : Bool) = true) from by decide)]
  rw [mdCellRoundTrips, hexp, hrd]
  exact ⟨rfl, hmdk.symm, hnil.symm, dropTrailingBlanks_cell_source cell⟩

theorem mdRoundTrips_markdown_meta (cell : Cell) (dl : String) (fmt : Fmt)
    (hdl : dl ∈ jupyterLanguages)
    (hext : fmt.extension = some ".md")
    (hcm : fmt.comment_magics.getD false = false)
    (hr : reprMetadata (filter_metadata cell.metadata fmt.cell_metadata_filter)
      = true)
    (hmdk : cell.cell_type = "markdown")
    (hcl : (cell_language (cell_source cell)).1 = none)
    (hne : ¬ ((filter_metadata cell.metadata fmt.cell_metadata_filter).isEmpty
      = true))
    (hnr : ¬ ("<!-- #endregion -->" ∈ cell_source cell)) :
    mdCellRoundTrips cell dl fmt := by
  have hinit := markdownInit_no_directive cell dl fmt hcl
  have hactm : initActiveMetadata cell.cell_type
      (filter_metadata cell.metadata fmt.cell_metadata_filter)
      = filter_metadata cell.metadata fmt.cell_metadata_filter := by
    rw [initActiveMetadata, hmdk, if_neg (by simp)]
  have htitle := mdGet_none_of_structural _ hr "title" (by decide)
  have hexp : markdownCellExport cell dl fmt
      = (joinSep " " ["<!-- #" ++ "region", metadata_to_json_options
          (filter_metadata cell.metadata fmt.cell_metadata_filter), "-->"])
        :: (cell_source cell ++ ["<!-- #endregion -->"]) := by
    rw [markdownCellExport, hinit, markdownCellToText]
    dsimp only
    rw [hactm, hmdk]
    rw [if_pos (show (("markdown" : String) = "markdown") from rfl)]
    rw [show (!(List.isEmpty
          (filter_metadata cell.metadata fmt.cell_metadata_filter))
        || decide ((mdReaderRead dl (cell_source cell)).2
            < (cell_source cell).length))
        = true from by
      rw [Bool.or_eq_true]
      exact Or.inl (by simpa using hne)]
    rw [if_pos (show ((true : Bool) = true) from rfl)]
    rw [html_comment]
    dsimp only
    rw [htitle, if_neg hne]
    rw [show ("<!-- #end" ++ "region" ++ " -->") = "<!-- #endregion -->" from
      by decide]
    rfl
  have hshape2 : (joinSep " " ["<!-- #" ++ "region", metadata_to_json_options
      (filter_metadata cell.metadata fmt.cell_metadata_filter), "-->"]).toList
      = "<!-- #region".toList ++ (' ' :: ((metadata_to_json_options
          (filter_metadata cell.metadata fmt.cell_metadata_filter)).toList
          ++ ' ' :: '-' :: '-' :: '>' :: [])) := by
    simp only [joinSep, strToList_append, space_toList, List.append_assoc,
      List.cons_append, List.nil_append]
    rw [show ("<!-- #region" : String).toList
        = "<!-- #".toList ++ "region".toList from by decide,
      show ("-->" : String).toList = ['-', '-', '>'] from by decide]
    simp only [List.append_assoc, List.cons_append, List.nil_append]
  have hread : mdReaderRead dl (markdownCellExport cell dl fmt)
      = (⟨"markdown", filter_metadata cell.metadata fmt.cell_metadata_filter,
          cell_source cell⟩, (cell_source cell).length + 2) := by
    rw [hexp, mdReaderRead, regionStartMeta_raw_region _ _ hshape2]
    dsimp only
    rw [regionStartMeta_json "region" _ hr]
    dsimp only
    rw [takeToLine_append "<!-- #endregion -->" (cell_source cell) [] hnr]
  rw [mdCellRoundTrips, hread, hexp]
  refine ⟨by simp, hmdk.symm, rfl, dropTrailingBlanks_cell_source cell⟩

theorem mem_of_contains_true {a : String} {l : List String}
    (h : l.contains a = true) : a ∈ l := by
  induction l with
  | nil => simp [List.contains] at h
  | cons x t ih =>
    rw [List.contains_cons, Bool.or_eq_true] at h
    rcases h with h | h
    · have : a = x := by simpa using h
      simp [this]
    · exact List.mem_cons_of_mem x (ih h)

theorem cellAfter_eq (cell : Cell) (es : ExporterState)
    (h : es.unfiltered_metadata = cell.metadata) : cellAfter es cell = cell := by
  rw [cellAfter, h]

theorem light_is_code_unfiltered (st : LightState) :
    (light_is_code st).2.base.unfiltered_metadata = st.base.unfiltered_metadata := by
  rw [light_is_code]
  split <;> rfl

theorem lightMarkedState_unfiltered (st : LightState) (source : List String) :
    (lightMarkedState st source).unfiltered_metadata = st.base.unfiltered_metadata := by
  rw [lightMarkedState]
  split <;> rfl

theorem lightStartMarkerLine_unfiltered (st : LightState) (es2 : ExporterState) :
    (lightStartMarkerLine st es2).1.unfiltered_metadata = es2.unfiltered_metadata := by
  rw [lightStartMarkerLine]
  repeat' split
  all_goals rfl

theorem lightCodeToText_unfiltered (st : LightState) :
    (lightCodeToText st).1.base.unfiltered_metadata = st.base.unfiltered_metadata := by
  rw [lightCodeToText]
  dsimp only
  split
  · exact lightMarkedState_unfiltered st _
  · refine (lightStartMarkerLine_unfiltered st _).trans ?_
    split
    · exact lightMarkedState_unfiltered st _
    · exact lightMarkedState_unfiltered st _

theorem lightCellToText_unfiltered (st : LightState) :
    (lightCellToText st).1.base.unfiltered_metadata = st.base.unfiltered_metadata := by
  rw [lightCellToText]
  split
  · exact (lightCodeToText_unfiltered _).trans (light_is_code_unfiltered st)
  · exact light_is_code_unfiltered st

theorem remove_eoc_marker_unfiltered (st : LightState) (text next_text : List String) :
    (remove_eoc_marker st text next_text).1.base.unfiltered_metadata
      = st.base.unfiltered_metadata := by
  rw [remove_eoc_marker]
  dsimp only
  repeat' split
  all_goals first
    | rfl
    | exact light_is_code_unfiltered st

theorem simplify_soc_marker_unfiltered (st : LightState) (text prev_text : List String) :
    (simplify_soc_marker st text prev_text).1.base.unfiltered_metadata
      = st.base.unfiltered_metadata := by
  rw [simplify_soc_marker]
  dsimp only
  repeat' split
  all_goals first
    | rfl
    | exact light_is_code_unfiltered st

theorem lightInit_unfiltered (cell : Cell) (dl : String) (fmt : Fmt) (ucm : Bool) :
    (lightInit cell dl fmt ucm).1.base.unfiltered_metadata = cell.metadata := by
  rw [lightInit]
  dsimp only
  repeat' split
  all_goals rfl

theorem rMarkdownCodeToText_unfiltered (st : ExporterState) :
    (rMarkdownCodeToText st).1.unfiltered_metadata = st.unfiltered_metadata := by
  rw [rMarkdownCodeToText]
  dsimp only
  repeat' split
  all_goals rfl

theorem rMarkdownCellToText_unfiltered (st : ExporterState) :
    (rMarkdownCellToText st).1.unfiltered_metadata = st.unfiltered_metadata := by
  rw [rMarkdownCellToText]
  repeat' split
  all_goals first
    | rfl
    | exact rMarkdownCodeToText_unfiltered st

theorem rScriptCodeToText_unfiltered (st : ExporterState) :
    (rScriptCodeToText st).1.unfiltered_metadata = st.unfiltered_metadata := by
  rw [rScriptCodeToText]
  dsimp only
  repeat' split
  all_goals rfl

theorem rScriptCellToText_unfiltered (st : ExporterState) :
    (rScriptCellToText st).1.unfiltered_metadata = st.unfiltered_metadata := by
  rw [rScriptCellToText]
  dsimp only
  repeat' split
  all_goals first
    | rfl
    | exact rScriptCodeToText_unfiltered st

theorem doublePercentCellToText_unfiltered (st : DoublePercentState) :
    (doublePercentCellToText st).1.base.unfiltered_metadata
      = st.base.unfiltered_metadata := by
  rw [doublePercentCellToText]
  dsimp only
  repeat' split
  all_goals rfl

theorem sphinxCellToText_unfiltered (st : ExporterState) :
    (sphinxCellToText st).1.unfiltered_metadata = st.unfiltered_metadata := by
  rw [sphinxCellToText]
  dsimp only
  repeat' split
  all_goals rfl

/-- C1: For every representable cell and Markdown context (any metadata filter,
extension `.md`, magic-commenting at the dialect default), exporting the cell
with the Markdown exporter and reading the text back with the dialect reader
reconstructs the cell: the text is consumed entirely, the cell type is
preserved, the reconstructed metadata equals the input metadata as filtered by
the context's metadata filter — retained keys, including fence options and
HTML-region JSON options, decode back to their values, and only filter-dropped
keys may differ — and the source is equal up to trailing blank lines; outputs
are not represented in the text at all.  On the concrete document with fenced
python and R blocks, fence options `tags=["parameters"]`, and a raw HTML region,
the full read-write cycle reproduces the document byte for byte. -/
theorem markdown_export_import_roundtrip :
    (∀ (cell : Cell) (dl : String) (fmt : Fmt),
        mdRoundTripSafe cell dl fmt = true → mdCellRoundTrips cell dl fmt) ∧
    md_writes (md_reads c1DocText).1 (md_reads c1DocText).2 = c1DocText := by
  constructor
  · intro cell dl fmt hsafe
    rw [mdRoundTripSafe] at hsafe
    simp only [Bool.and_eq_true, decide_eq_true_eq] at hsafe
    obtain ⟨⟨⟨⟨hdl0, hext⟩, hcm⟩, hr⟩, hrest⟩ := hsafe
    have hdl : dl ∈ jupyterLanguages := mem_of_contains_true hdl0
    by_cases hct : cell.cell_type = "code"
    · rw [if_pos hct] at hrest
      cases hopt : (cell_language (cell_source cell)).1 with
      | none =>
        rw [hopt] at hrest
        simp only [Bool.not_eq_true'] at hrest
        exact mdRoundTrips_code_none cell dl fmt hdl hext hcm hr hct hopt
          (not_mem_of_contains_false hrest)
      | some lang =>
        rw [hopt] at hrest
        simp only [Bool.and_eq_true, decide_eq_true_eq, Bool.not_eq_true']
          at hrest
        obtain ⟨⟨hlne, hhead⟩, hnf⟩ := hrest
        exact mdRoundTrips_code_some cell dl fmt lang hdl hext hcm hr hct hopt
          hlne hhead (not_mem_of_contains_false hnf)
    · rw [if_neg hct] at hrest
      by_cases hct2 : cell.cell_type = "raw"
      · rw [if_pos hct2] at hrest
        simp only [Bool.and_eq_true, Bool.not_eq_true',
          Option.isNone_iff_eq_none] at hrest
        obtain ⟨hnr, hcl⟩ := hrest
        exact mdRoundTrips_raw cell dl fmt hdl hext hcm hr hct2 hcl
          (not_mem_of_contains_false hnr)
      · rw [if_neg hct2] at hrest
        by_cases hct3 : cell.cell_type = "markdown"
        · rw [if_pos hct3] at hrest
          simp only [Bool.and_eq_true, Option.isNone_iff_eq_none] at hrest
          obtain ⟨hcl, hrest2⟩ := hrest
          by_cases hmde :
              (filter_metadata cell.metadata fmt.cell_metadata_filter).isEmpty
          · rw [if_pos hmde] at hrest2
            have hnil :
                filter_metadata cell.metadata fmt.cell_metadata_filter = [] := by
              simpa using hmde
            have hall : ∀ l ∈ cell_source cell, isCellStart l = false := by
              intro l hl
              have := List.all_eq_true.mp hrest2 l hl
              simpa using this
            exact mdRoundTrips_markdown_plain cell dl fmt hdl hext hcm hct3 hcl
              hnil hall
          · rw [if_neg hmde] at hrest2
            simp only [Bool.not_eq_true'] at hrest2
            exact mdRoundTrips_markdown_meta cell dl fmt hdl hext hcm hr hct3
              hcl hmde (not_mem_of_contains_false hrest2)
        · rw [if_neg hct3] at hrest
          exact absurd hrest Bool.false_ne_true
  · decide

/-- Witness for C1: a code cell carrying the tags metadata of the
`test_code_cell_with_metadata` round-trip test satisfies the representability
guard, and the round trip reconstructs it — in particular the retained
`tags=["parameters"]` metadata survives the export-import cycle. -/
theorem markdown_export_import_roundtrip_witness :
    mdRoundTripSafe ⟨"code", "1 + 1", [("tags", JVal.list ["parameters"])]⟩
        "python" mdFmt = true ∧
    mdCellRoundTrips ⟨"code", "1 + 1", [("tags", JVal.list ["parameters"])]⟩
        "python" mdFmt :=
  ⟨by decide, markdown_export_import_roundtrip.1
    ⟨"code", "1 + 1", [("tags", JVal.list ["parameters"])]⟩ "python" mdFmt
    (by decide)⟩

/-- C9: no dialect exporter mutates the caller's cell.  For every cell, context
and post-processing arguments, the cell observable through the exporter's alias
after the full pipeline (construction, `cell_to_text`, and for the light script
also `remove_eoc_marker` and `simplify_soc_marker`) equals the original cell, for
the light and bare scripts (both values of the marker flag), Markdown, R Markdown,
the R script, double-percent and Hydrogen (both flag combinations), and Sphinx
Gallery (when its constructor does not fail). -/
theorem exporters_preserve_callers_cell (cell : Cell) (dl : String) (fmt : Fmt)
    (ucm parseLang dcm : Bool) (text next_text prev_text : List String) :
    cellAfter (simplify_soc_marker
        (remove_eoc_marker (lightCellToText (lightInit cell dl fmt ucm).1).1
          text next_text).1 text prev_text).1.base cell = cell ∧
    cellAfter (markdownInit cell dl fmt) cell = cell ∧
    cellAfter (rMarkdownCellToText (rMarkdownInit cell dl fmt)).1 cell = cell ∧
    cellAfter (rScriptCellToText (rScriptInit cell dl fmt)).1 cell = cell ∧
    cellAfter (doublePercentCellToText
        (doublePercentInit cell dl fmt parseLang dcm)).1.base cell = cell ∧
    (sphinxGalleryInit cell dl fmt).map
        (fun st => cellAfter (sphinxCellToText st).1 cell)
      = (sphinxGalleryInit cell dl fmt).map (fun _ => cell) := by
  refine ⟨?_, ?_, ?_, ?_, ?_, ?_⟩
  · exact cellAfter_eq _ _ ((simplify_soc_marker_unfiltered _ _ _).trans
      ((remove_eoc_marker_unfiltered _ _ _).trans
        ((lightCellToText_unfiltered _).trans (lightInit_unfiltered cell dl fmt ucm))))
  · exact cellAfter_eq _ _ rfl
  · exact cellAfter_eq _ _ (rMarkdownCellToText_unfiltered _)
  · exact cellAfter_eq _ _ (rScriptCellToText_unfiltered _)
  · exact cellAfter_eq _ _ (doublePercentCellToText_unfiltered _)
  · rw [sphinxGalleryInit]
    dsimp only
    split
    · rfl
    · show Except.ok _ = Except.ok _
      refine congrArg Except.ok (cellAfter_eq _ _ ?_)
      refine (sphinxCellToText_unfiltered _).trans ?_
      split <;> rfl

end Jupytext
